import Mathlib

/-
Verification of the time-series forecasting and risk-analytics engine of the
investment-tracker repository (backend/app/services/ml_service.py).

The Python service is shallowly embedded: float values are modelled as exact
rationals where every operation is rational (trend classification, forecast
bound construction, trend-analysis percentages) and as real numbers where the
code takes square roots or logarithms (preprocessing outlier clipping,
correlation of log returns).  Python round(x, nd) is modelled as exact
round-half-to-even in decimal (pyRound).  numpy/pandas missing values (NaN)
are modelled as Option.none; raised exceptions are modelled as Except.error
values that the outer operations convert into structured error results,
mirroring the try/except boundary of predict_prices, get_trend_analysis and
calculate_correlation_matrix.
-/

/-- Round-half-to-even of a field element to an integer, the tie rule of
Python's built-in round (banker's rounding). -/
def roundHalfEven {α : Type} [LinearOrderedField α] [FloorRing α] (x : α) : ℤ :=
  if x - (⌊x⌋ : α) < 1/2 then ⌊x⌋
  else if (1/2 : α) < x - (⌊x⌋ : α) then ⌊x⌋ + 1
  else if ⌊x⌋ % 2 = 0 then ⌊x⌋ else ⌊x⌋ + 1

/-- Model of Python round(x, n): round-half-to-even at n decimal digits. -/
def pyRound {α : Type} [LinearOrderedField α] [FloorRing α] (n : ℕ) (x : α) : α :=
  (roundHalfEven (x * (10 : α) ^ n) : α) / (10 : α) ^ n

section RoundLemmas

variable {α : Type} [LinearOrderedField α] [FloorRing α]

theorem roundHalfEven_ge_floor (x : α) : ⌊x⌋ ≤ roundHalfEven x := by
  unfold roundHalfEven
  split_ifs <;> omega

theorem roundHalfEven_le_floor_add_one (x : α) : roundHalfEven x ≤ ⌊x⌋ + 1 := by
  unfold roundHalfEven
  split_ifs <;> omega

theorem roundHalfEven_mono {x y : α} (h : x ≤ y) :
    roundHalfEven x ≤ roundHalfEven y := by
  rcases lt_or_eq_of_le (Int.floor_le_floor h) with hf | hf
  · calc roundHalfEven x ≤ ⌊x⌋ + 1 := roundHalfEven_le_floor_add_one x
    _ ≤ ⌊y⌋ := by omega
    _ ≤ roundHalfEven y := roundHalfEven_ge_floor y
  · unfold roundHalfEven
    rw [← hf]
    have hr : x - (⌊x⌋ : α) ≤ y - (⌊x⌋ : α) := by linarith
    split_ifs <;> first | omega | linarith

theorem roundHalfEven_intCast (m : ℤ) : roundHalfEven ((m : α)) = m := by
  simp [roundHalfEven, Int.floor_intCast]

theorem pyRound_mono (n : ℕ) {x y : α} (h : x ≤ y) : pyRound n x ≤ pyRound n y := by
  unfold pyRound
  have hp : (0 : α) < (10 : α) ^ n := by positivity
  have hm : x * (10 : α) ^ n ≤ y * (10 : α) ^ n := by
    exact mul_le_mul_of_nonneg_right h (le_of_lt hp)
  have h2 := roundHalfEven_mono hm
  have h3 : ((roundHalfEven (x * (10 : α) ^ n) : ℤ) : α) ≤
      ((roundHalfEven (y * (10 : α) ^ n) : ℤ) : α) := by exact_mod_cast h2
  gcongr

theorem pyRound_intCast (n : ℕ) (m : ℤ) :
    pyRound n ((m : α)) = (m : α) := by
  unfold pyRound
  have hcast : (m : α) * (10 : α) ^ n = (((m * 10 ^ n : ℤ)) : α) := by push_cast; ring
  rw [hcast, roundHalfEven_intCast]
  have hp : (0 : α) < (10 : α) ^ n := by positivity
  push_cast
  field_simp

theorem abs_pyRound_le_one (n : ℕ) {x : α} (h : |x| ≤ 1) : |pyRound n x| ≤ 1 := by
  rw [abs_le] at h ⊢
  constructor
  · have := pyRound_mono (α := α) n h.1
    rw [show ((-1 : α)) = ((-1 : ℤ) : α) by norm_num] at this ⊢
    rw [pyRound_intCast] at this
    exact this
  · have := pyRound_mono (α := α) n h.2
    rw [show ((1 : α)) = ((1 : ℤ) : α) by norm_num] at this ⊢
    rw [pyRound_intCast] at this
    exact this

end RoundLemmas

/-- A forecast point as assembled in predict_prices (ml_service.py lines
423-428): predicted price, lower and upper confidence bounds, all rounded to
two decimals.  The forecast date is irrelevant to the verified properties and
is omitted. -/
structure ForecastPoint where
  predicted_price : ℚ
  lower_bound : ℚ
  upper_bound : ℚ
deriving DecidableEq, Repr

/-- Uncertainty factor 1 + 0.15 i for forecast step i (line 420). -/
def uncertaintyFactor (i : ℕ) : ℚ := 1 + (i : ℚ) * (15 / 100)

/-- Confidence margin residual_std * 1.96 * (1 + 0.15 i) for step i (line 421). -/
def marginAt (rstd : ℚ) (i : ℕ) : ℚ := rstd * (196 / 100) * uncertaintyFactor i

/-- One forecast point from the raw model output yRaw at 1-based step i
(lines 416-428): the price is clamped below at 0.01, the lower bound is
clamped below at 0.01, and all three fields are rounded to two decimals. -/
def forecastPoint (rstd : ℚ) (i : ℕ) (yRaw : ℚ) : ForecastPoint :=
  let y := max (1/100) yRaw
  let m := marginAt rstd i
  { predicted_price := pyRound 2 y
    lower_bound := pyRound 2 (max (1/100) (y - m))
    upper_bound := pyRound 2 (y + m) }

/-- The list of forecast points built by the prediction loop (lines 361-428)
from the sequence of raw model outputs, step index starting at 1. -/
def buildPredictions (rstd : ℚ) (ys : List ℚ) : List ForecastPoint :=
  ys.enum.map fun p => forecastPoint rstd (p.1 + 1) p.2

/-- Half-width (upper_bound - lower_bound) / 2 of a forecast point. -/
def halfWidth (p : ForecastPoint) : ℚ := (p.upper_bound - p.lower_bound) / 2

/-- Trend classification of _determine_trend (ml_service.py lines 476-490):
neutral on an empty forecast list or non-positive current price, otherwise
bullish / bearish / neutral by the percentage change of the last predicted
price against the current price at the plus / minus 5 threshold. -/
def determine_trend (preds : List ForecastPoint) (current : ℚ) : String :=
  if preds.isEmpty ∨ current ≤ 0 then "neutral"
  else
    let lastP := ((preds.getLast?).map ForecastPoint.predicted_price).getD 0
    let change := (lastP - current) / current * 100
    if 5 < change then "bullish"
    else if change < -5 then "bearish"
    else "neutral"

/-- Percentage change of the last predicted price against the current price,
as computed inside _determine_trend (line 482). -/
def trendChangePct (preds : List ForecastPoint) (current : ℚ) : ℚ :=
  ((((preds.getLast?).map ForecastPoint.predicted_price).getD 0) - current) / current * 100

theorem pyRound_of_int {α : Type} [LinearOrderedField α] [FloorRing α]
    (n : ℕ) (x : α) (m : ℤ) (h : x * (10 : α) ^ n = (m : α)) : pyRound n x = x := by
  have hp : ((10 : α) ^ n) ≠ 0 := by positivity
  rw [pyRound, h, roundHalfEven_intCast, ← h]
  field_simp

theorem determine_trend_eval (preds : List ForecastPoint) (current : ℚ) :
    determine_trend preds current =
      if preds.isEmpty ∨ current ≤ 0 then "neutral"
      else if 5 < trendChangePct preds current then "bullish"
      else if trendChangePct preds current < -5 then "bearish"
      else "neutral" := by
  simp only [determine_trend, trendChangePct]

/-- C7: _determine_trend is a pure function of the forecast list and current
price returning "bullish" exactly when the percentage change of the last
predicted price over the current price exceeds 5, "bearish" exactly when it
is below -5, and "neutral" otherwise, with an empty forecast list or a
non-positive current price always classified "neutral".  Determinism on
identical inputs is immediate since the embedding is a function. -/
theorem determine_trend_spec (preds : List ForecastPoint) (current : ℚ) :
    (determine_trend preds current = "bullish" ↔
      preds ≠ [] ∧ 0 < current ∧ 5 < trendChangePct preds current) ∧
    (determine_trend preds current = "bearish" ↔
      preds ≠ [] ∧ 0 < current ∧ trendChangePct preds current < -5) ∧
    (preds = [] ∨ current ≤ 0 ∨
        (-5 ≤ trendChangePct preds current ∧ trendChangePct preds current ≤ 5) →
      determine_trend preds current = "neutral") := by
  rw [determine_trend_eval]
  by_cases h1 : preds.isEmpty ∨ current ≤ 0
  · rw [if_pos h1]
    rcases h1 with h1 | h1
    · rw [List.isEmpty_iff] at h1
      refine ⟨by simp [h1], by simp [h1], fun _ => rfl⟩
    · refine ⟨?_, ?_, fun _ => rfl⟩ <;> constructor <;> intro h
      · simp at h
      · exact absurd h1 (not_le.mpr h.2.1)
      · simp at h
      · exact absurd h1 (not_le.mpr h.2.1)
  · push_neg at h1
    obtain ⟨hne, hpos⟩ := h1
    have hne' : preds ≠ [] := by simpa [List.isEmpty_iff] using hne
    have hpos' : 0 < current := hpos
    rw [if_neg (by simp [hne', hpos'])]
    split_ifs with hb hbe
    · refine ⟨by simp [hne', hpos', hb], ?_, ?_⟩
      · constructor
        · intro h; simp at h
        · intro h; linarith [h.2.2]
      · intro h
        rcases h with h | h | h
        · exact absurd h hne'
        · linarith
        · linarith [h.2]
    · refine ⟨?_, by simp [hne', hpos', hbe], ?_⟩
      · constructor
        · intro h; simp at h
        · intro h; linarith [h.2.2]
      · intro h
        rcases h with h | h | h
        · exact absurd h hne'
        · linarith
        · linarith [h.1]
    · refine ⟨?_, ?_, fun _ => rfl⟩ <;> constructor <;> intro h
      · simp at h
      · exact absurd h.2.2 hb
      · simp at h
      · exact absurd h.2.2 hbe

/-- Witness for determine_trend_spec at an empty forecast list. -/
theorem determine_trend_spec_witness : determine_trend [] 10 = "neutral" :=
  (determine_trend_spec [] 10).2.2 (Or.inl rfl)

theorem marginAt_nonneg {rstd : ℚ} (h : 0 ≤ rstd) (i : ℕ) : 0 ≤ marginAt rstd i := by
  unfold marginAt uncertaintyFactor
  positivity

/-- C1 (amended): every forecast point built by the prediction loop has
upper_bound greater than or equal to lower_bound, and the intended margin
residual_std * 1.96 * (1 + 0.15 t) is non-decreasing in the step index t.
The realized half-width (upper_bound - lower_bound) / 2 itself can decrease
from one step to the next when the 0.01 clamp on the lower bound binds, see
the counterexample. -/
theorem forecast_bounds_spec (rstd : ℚ) (ys : List ℚ) (h : 0 ≤ rstd) :
    (∀ p ∈ buildPredictions rstd ys, p.lower_bound ≤ p.upper_bound) ∧
    (∀ i j : ℕ, i ≤ j → marginAt rstd i ≤ marginAt rstd j) := by
  constructor
  · intro p hp
    rw [buildPredictions, List.mem_map] at hp
    obtain ⟨⟨i, y⟩, _, rfl⟩ := hp
    simp only [forecastPoint]
    apply pyRound_mono
    have hm : 0 ≤ marginAt rstd (i + 1) := marginAt_nonneg h _
    apply max_le
    · have : (1/100 : ℚ) ≤ max (1/100) y := le_max_left _ _
      linarith
    · linarith
  · intro i j hij
    unfold marginAt uncertaintyFactor
    have : (i : ℚ) ≤ (j : ℚ) := by exact_mod_cast hij
    nlinarith

/-- Witness for forecast_bounds_spec at residual_std 1 and a one-step forecast. -/
theorem forecast_bounds_spec_witness :
    (0 : ℚ) ≤ 1 ∧ ∀ p ∈ buildPredictions 1 [10], p.lower_bound ≤ p.upper_bound :=
  ⟨by norm_num, (forecast_bounds_spec 1 [10] (by norm_num)).1⟩

theorem buildPredictions_cex_eval :
    buildPredictions 50 [100, 1/100] =
      [⟨100, 1/100, 2127/10⟩, ⟨1/100, 1/100, 12741/100⟩] := by
  have hm1 : marginAt 50 1 = 1127/10 := by norm_num [marginAt, uncertaintyFactor]
  have hm2 : marginAt 50 2 = 637/5 := by norm_num [marginAt, uncertaintyFactor]
  simp only [buildPredictions, List.enum, List.enumFrom, List.map, forecastPoint]
  rw [hm1, hm2]
  have hmax1 : max (1/100 : ℚ) 100 = 100 := by norm_num [max_def]
  have hmax2 : max (1/100 : ℚ) (100 - 1127/10) = 1/100 := by norm_num [max_def]
  have hmax3 : max (1/100 : ℚ) (1/100) = 1/100 := by norm_num [max_def]
  have hmax4 : max (1/100 : ℚ) (1/100 - 637/5) = 1/100 := by norm_num [max_def]
  rw [hmax1, hmax2, hmax3, hmax4]
  have e1 : pyRound 2 (100 : ℚ) = 100 := pyRound_of_int 2 100 10000 (by norm_num)
  have e2 : pyRound 2 ((1:ℚ)/100) = 1/100 := pyRound_of_int 2 (1/100) 1 (by norm_num)
  have e3 : pyRound 2 ((100:ℚ) + 1127/10) = 2127/10 := by
    have : ((100:ℚ) + 1127/10) = 2127/10 := by norm_num
    rw [this]
    exact pyRound_of_int 2 (2127/10) 21270 (by norm_num)
  have e4 : pyRound 2 ((1:ℚ)/100 + 637/5) = 12741/100 := by
    have : ((1:ℚ)/100 + 637/5) = 12741/100 := by norm_num
    rw [this]
    exact pyRound_of_int 2 (12741/100) 12741 (by norm_num)
  rw [e1, e2, e3, e4]

/-- C1 counterexample: with residual_std 50 and raw model outputs 100 then
0.01, the first point has half-width 106.345 and the second 63.7, so the
half-width (upper_bound - lower_bound) / 2 is not non-decreasing in the step
index: the 0.01 clamp on the lower bound breaks the monotonicity that holds
for the unclamped margin. -/
theorem forecast_halfwidth_cex :
    ¬ ((∀ p ∈ buildPredictions 50 [100, 1/100], p.lower_bound ≤ p.upper_bound) ∧
       List.Chain' (fun p q => halfWidth p ≤ halfWidth q)
         (buildPredictions 50 [100, 1/100])) := by
  intro h
  have hc := h.2
  rw [buildPredictions_cex_eval] at hc
  have := List.chain'_cons.mp hc
  have h1 : halfWidth ⟨100, 1/100, 2127/10⟩ = 21269/200 := by norm_num [halfWidth]
  have h2 : halfWidth ⟨1/100, 1/100, 12741/100⟩ = 637/10 := by norm_num [halfWidth]
  rw [h1, h2] at this
  linarith [this.1]

/-- A raw history row as consumed by _preprocess_data: a date that may fail
to parse (none models pandas NaT after to_datetime errors=coerce, dates are
modelled by their ordinal day number) and a close that may be missing (none
models NaN / null). -/
structure RawRow where
  date : Option ℤ
  close : Option ℝ

/-- Warnings accumulated by _preprocess_data, by count, in source order. -/
inductive Warn
  | invalidDates (n : ℕ)
  | interpolatedNulls (n : ℕ)
  | replacedZeros (n : ℕ)
  | clippedOutliers (n : ℕ)
  | dataLoss (origLen finalLen : ℕ)
deriving DecidableEq

/-- Errors surfaced by the ML service operations; each constructor models one
of the structured error messages of predict_prices (the ValueError raised by
_preprocess_data is cleanTooFew, caught at the predict boundary). -/
inductive MLError
  | noHistoricalData
  | noPrices
  | rawTooFew (n : ℕ)
  | cleanTooFew (n : ℕ)
  | trainTooFew (n : ℕ)
deriving DecidableEq

/-- Interior values of a linear-interpolation gap: gap missing slots between
a previous valid value vi and a next valid value vk, the m-th slot receiving
vi + (vk - vi) * (m+1)/(gap+1), pandas method=linear on positional spacing. -/
noncomputable def interpGapVals (vi vk : ℝ) (gap : ℕ) : List ℝ :=
  (List.range gap).map fun (m : ℕ) => vi + (vk - vi) * (((m : ℝ) + 1) / ((gap : ℝ) + 1))

/-- Linear interpolation of missing values in a column, pandas
Series.interpolate(method=linear) with the default forward limit direction:
interior runs of missing values are filled linearly between their valid
neighbours by position, missing values after the last valid value are filled
with that value, and missing values before the first valid value are left
missing.  The first argument carries the last valid value seen so far. -/
noncomputable def interpolate : Option ℝ → List (Option ℝ) → List (Option ℝ)
  | _, [] => []
  | _, some v :: t => some v :: interpolate (some v) t
  | prev, none :: t =>
    (match prev, (t.dropWhile Option.isNone).head? with
      | some vi, some (some vk) =>
          (interpGapVals vi vk ((t.takeWhile Option.isNone).length + 1)).map some
      | some vi, _ => List.replicate ((t.takeWhile Option.isNone).length + 1) (some vi)
      | none, _ => List.replicate ((t.takeWhile Option.isNone).length + 1)
          (none : Option ℝ)) ++
      interpolate prev (t.dropWhile Option.isNone)
  termination_by _ l => l.length
  decreasing_by
  · simp
  · have h1 := List.Sublist.length_le (List.dropWhile_sublist (p := Option.isNone) (l := t))
    simp
    omega

/-- Arithmetic mean of a list, numpy / pandas mean. -/
noncomputable def mean (l : List ℝ) : ℝ := l.sum / l.length

/-- Sample variance with the n-1 denominator, the square of pandas std(). -/
noncomputable def sampleVar (l : List ℝ) : ℝ :=
  ((l.map fun x => (x - mean l) ^ 2).sum) / ((l.length : ℝ) - 1)

/-- Sample standard deviation, pandas Series.std() with its default ddof=1. -/
noncomputable def sampleStd (l : List ℝ) : ℝ := Real.sqrt (sampleVar l)

theorem list_sum_eq_range_sum (l : List ℝ) :
    l.sum = ∑ i ∈ Finset.range l.length, l.getD i 0 := by
  induction l with
  | nil => simp
  | cons a t ih =>
    rw [List.sum_cons, ih, List.length_cons, Finset.sum_range_succ']
    simp [List.getD_cons_succ, List.getD_cons_zero, add_comm]

theorem list_sq_sum_eq_range_sum (l : List ℝ) :
    (l.map fun x => x ^ 2).sum = ∑ i ∈ Finset.range l.length, l.getD i 0 ^ 2 := by
  induction l with
  | nil => simp
  | cons a t ih =>
    rw [List.map_cons, List.sum_cons, ih, List.length_cons, Finset.sum_range_succ']
    simp [List.getD_cons_succ, List.getD_cons_zero, add_comm]

theorem list_sq_sum_le (l : List ℝ) :
    l.sum ^ 2 ≤ (l.length : ℝ) * (l.map fun x => x ^ 2).sum := by
  rw [list_sum_eq_range_sum, list_sq_sum_eq_range_sum]
  have h := sq_sum_le_card_mul_sum_sq (s := Finset.range l.length)
    (f := fun i => l.getD i 0)
  simpa using h

theorem list_map_sub_const_sum (l : List ℝ) (c : ℝ) :
    (l.map fun x => x - c).sum = l.sum - (l.length : ℝ) * c := by
  induction l with
  | nil => simp
  | cons a t ih =>
    rw [List.map_cons, List.sum_cons, ih, List.sum_cons, List.length_cons]
    push_cast
    ring

theorem centered_sum_eq_zero (l : List ℝ) :
    (l.map fun x => x - mean l).sum = 0 := by
  rcases eq_or_ne l [] with rfl | h
  · simp
  · rw [list_map_sub_const_sum, mean]
    have hn : (l.length : ℝ) ≠ 0 := Nat.cast_ne_zero.mpr (List.length_pos.mpr h).ne'
    field_simp

theorem centered_sq_le (l : List ℝ) (x : ℝ) (hx : x ∈ l) (hsum : l.sum = 0) :
    x ^ 2 * (l.length : ℝ) ≤ ((l.length : ℝ) - 1) * (l.map fun y => y ^ 2).sum := by
  have hperm : List.Perm l (x :: l.erase x) := List.perm_cons_erase hx
  have hsum2 : l.sum = x + (l.erase x).sum := by
    have := hperm.sum_eq
    simpa using this
  have hsq : (l.map fun y => y ^ 2).sum = x ^ 2 + ((l.erase x).map fun y => y ^ 2).sum := by
    have := (hperm.map fun y => y ^ 2).sum_eq
    simpa using this
  have hlen : l.length = (l.erase x).length + 1 := by
    have := hperm.length_eq
    simpa using this
  have hcs := list_sq_sum_le (l.erase x)
  have hex : (l.erase x).sum = -x := by linarith
  rw [hex] at hcs
  have hT : (0 : ℝ) ≤ ((l.erase x).length : ℝ) := by positivity
  rw [hlen]
  push_cast
  nlinarith [hcs, hsq]

/-- No element of a list of at most 10 values can lie more than 3 sample
standard deviations from the mean: the largest attainable z-score with the
n-1 denominator is (n-1)/sqrt(n), below 3 for n at most 10.  This is why the
len greater than 10 guard before the outlier-clipping step of
_preprocess_data cannot hide an outlier. -/
theorem no_outlier_of_short (cs : List ℝ) (hlen : cs.length ≤ 10) (x : ℝ)
    (hx : x ∈ cs) : ¬ (3 < |x - mean cs| / sampleStd cs) := by
  intro hz
  set s := sampleStd cs with hs
  have hs0 : 0 ≤ s := Real.sqrt_nonneg _
  rcases eq_or_lt_of_le hs0 with hs0' | hspos
  · rw [← hs0', div_zero] at hz
    norm_num at hz
  · have hvarpos : 0 < sampleVar cs := by
      have := Real.sqrt_pos.mp (by simpa [hs] using hspos)
      simpa [sampleStd] using this
    have hss : s ^ 2 = sampleVar cs := Real.sq_sqrt (le_of_lt hvarpos)
    have hd : 3 * s < |x - mean cs| := by
      rw [lt_div_iff hspos] at hz
      linarith
    have hd2 : 9 * s ^ 2 < (x - mean cs) ^ 2 := by
      have habs : 0 ≤ |x - mean cs| := abs_nonneg _
      nlinarith [sq_abs (x - mean cs)]
    have hn1 : (1 : ℕ) ≤ cs.length := by
      rcases cs with _ | _
      · simp at hx
      · simp
    have hn2 : (2 : ℕ) ≤ cs.length := by
      by_contra hlt
      push_neg at hlt
      have h1 : cs.length = 1 := by
        have h0 : cs.length ≠ 0 := by
          intro h
          rw [List.length_eq_zero] at h
          subst h
          simp at hx
        omega
      rw [sampleVar, h1] at hvarpos
      norm_num at hvarpos
    set c := cs.map fun y => y - mean cs with hc
    have hmemc : x - mean cs ∈ c := List.mem_map_of_mem _ hx
    have hsumc : c.sum = 0 := centered_sum_eq_zero cs
    have hlenc : c.length = cs.length := by simp [hc]
    have hkey := centered_sq_le c (x - mean cs) hmemc hsumc
    rw [hlenc] at hkey
    have hmapmap : (c.map fun y => y ^ 2).sum = (cs.map fun y => (y - mean cs) ^ 2).sum := by
      rw [hc, List.map_map]
      rfl
    rw [hmapmap] at hkey
    have hvar : sampleVar cs = (cs.map fun y => (y - mean cs) ^ 2).sum / ((cs.length : ℝ) - 1) :=
      rfl
    have hnR : (2 : ℝ) ≤ (cs.length : ℝ) := by exact_mod_cast hn2
    have hnR10 : ((cs.length : ℝ)) ≤ 10 := by exact_mod_cast hlen
    have hdenpos : (0 : ℝ) < (cs.length : ℝ) - 1 := by linarith
    have hSS : (cs.map fun y => (y - mean cs) ^ 2).sum = sampleVar cs * ((cs.length : ℝ) - 1) := by
      rw [hvar]
      field_simp
    rw [hSS] at hkey
    rw [hss] at hd2
    have hnpos : (0 : ℝ) < (cs.length : ℝ) := by linarith
    have hq1 : 9 * sampleVar cs * (cs.length : ℝ) < (x - mean cs) ^ 2 * (cs.length : ℝ) := by
      nlinarith [hd2, hnpos]
    have hq2 : (x - mean cs) ^ 2 * (cs.length : ℝ) ≤
        sampleVar cs * ((cs.length : ℝ) - 1) ^ 2 := by nlinarith [hkey]
    have hq4 : ((cs.length : ℝ) - 1) ^ 2 ≤ 9 * (cs.length : ℝ) := by
      nlinarith [mul_nonneg (by linarith : (0 : ℝ) ≤ (cs.length : ℝ) - 2)
        (by linarith : (0 : ℝ) ≤ 10 - (cs.length : ℝ))]
    nlinarith [hq1, hq2, hq4, hvarpos.le]

/-- Rows that survive date parsing (step 3 of _preprocess_data): rows whose
date coerced successfully, in input order, paired with their close column. -/
def datedRows (rows : List RawRow) : List (ℤ × Option ℝ) :=
  rows.filterMap fun r => r.date.map fun d => (d, r.close)

/-- Count of null closes, df close isna sum (line 100). -/
def countNullClose (closes : List (Option ℝ)) : ℕ :=
  closes.countP fun o => o.isNone

/-- Count of exactly-zero closes, (df close == 0) sum (line 101); a missing
value is not equal to zero, as in pandas. -/
noncomputable def countZeroClose (closes : List (Option ℝ)) : ℕ :=
  closes.countP fun o => (o.map fun x => decide (x = 0)).getD false

/-- Replace current zero closes by missing values (line 109). -/
noncomputable def maskZeros (closes : List (Option ℝ)) : List (Option ℝ) :=
  closes.map fun o => if (o.map fun x => decide (x = 0)).getD false then none else o

/-- The close column after the null / zero handling of step 4 of
_preprocess_data: interpolate if any null was counted, then blank out zeros
and interpolate again if any zero was counted. -/
noncomputable def handleMissing (closes : List (Option ℝ)) : List (Option ℝ) :=
  let nNull := countNullClose closes
  let nZero := countZeroClose closes
  let closes1 := if 0 < nNull then interpolate none closes else closes
  if 0 < nZero then interpolate none (maskZeros closes1) else closes1

/-- Ordering of cleaned rows by date, df.sort_values on the date column. -/
def dateLE (a b : ℤ × ℝ) : Prop := a.1 ≤ b.1

instance : DecidableRel dateLE := fun a b => by unfold dateLE; infer_instance

instance : IsTotal (ℤ × ℝ) dateLE := ⟨fun a b => le_total a.1 b.1⟩

instance : IsTrans (ℤ × ℝ) dateLE := ⟨fun _ _ _ h1 h2 => le_trans h1 h2⟩

/-- Outlier handling of _preprocess_data (lines 115-128): when more than 10
rows remain and the close standard deviation is positive, closes whose
absolute z-score exceeds 3 are clipped into the band mean plus or minus
3 std; the second component is the outlier count driving the warning. -/
noncomputable def clipStep (rows : List (ℤ × ℝ)) : List (ℤ × ℝ) × ℕ :=
  if 10 < rows.length then
    let cs := rows.map Prod.snd
    let m := mean cs
    let s := sampleStd cs
    if 0 < s then
      let nOut := cs.countP fun x => decide (3 < |x - m| / s)
      if 0 < nOut then
        (rows.map fun r => (r.1, max (m - 3 * s) (min (m + 3 * s) r.2)), nOut)
      else (rows, 0)
    else (rows, 0)
  else (rows, 0)

/-- The rows entering the outlier-clipping step: date-parsed rows paired
with the close column after null / zero interpolation, rows whose close is
still missing dropped (the dropna of line 113). -/
noncomputable def preClipRows (rows : List RawRow) : List (ℤ × ℝ) :=
  (((datedRows rows).map Prod.fst).zip (handleMissing ((datedRows rows).map Prod.snd))).filterMap
    fun p => p.2.map fun c => (p.1, c)

/-- The cleaning pipeline of _preprocess_data up to but excluding the final
minimum-length check (lines 81-131): date parsing and dropping, null / zero
interpolation, dropping closes still missing, outlier clipping, and a stable
sort by date; returns the cleaned rows and the warnings in source order. -/
noncomputable def cleanCore (rows : List RawRow) : List (ℤ × ℝ) × List Warn :=
  let dated := datedRows rows
  let badDates := rows.length - dated.length
  let w1 : List Warn := if 0 < badDates then [Warn.invalidDates badDates] else []
  let closes0 := dated.map Prod.snd
  let nNull := countNullClose closes0
  let nZero := countZeroClose closes0
  let w2 := w1 ++ (if 0 < nNull then [Warn.interpolatedNulls nNull] else [])
  let w3 := w2 ++ (if 0 < nZero then [Warn.replacedZeros nZero] else [])
  let clipped := clipStep (preClipRows rows)
  let w4 := w3 ++ (if 0 < clipped.2 then [Warn.clippedOutliers clipped.2] else [])
  (List.insertionSort dateLE clipped.1, w4)

/-- _preprocess_data (ml_service.py lines 74-141): runs the cleaning
pipeline, raises (returns an error) when fewer than 10 rows remain, and
appends the significant-data-loss warning when more than 30 percent of the
input rows were lost. -/
noncomputable def preprocess_data (rows : List RawRow) :
    Except MLError (List (ℤ × ℝ) × List Warn) :=
  let c := cleanCore rows
  if c.1.length < 10 then .error (.cleanTooFew c.1.length)
  else .ok (c.1, c.2 ++
    (if ((c.1.length : ℚ)) < (7 / 10 : ℚ) * (rows.length : ℚ) then
      [Warn.dataLoss rows.length c.1.length] else []))

theorem interpolate_nil (prev : Option ℝ) : interpolate prev [] = [] := by
  rw [interpolate.eq_def]

theorem interpolate_cons_some (prev : Option ℝ) (v : ℝ) (t : List (Option ℝ)) :
    interpolate prev (some v :: t) = some v :: interpolate (some v) t := by
  rw [interpolate.eq_def]

theorem dropWhile_isNone_shape (t : List (Option ℝ)) :
    t.dropWhile Option.isNone = [] ∨
      ∃ vk t2, t.dropWhile Option.isNone = some vk :: t2 := by
  induction t with
  | nil => exact Or.inl rfl
  | cons a t ih =>
    rcases a with _ | v
    · simpa [List.dropWhile_cons] using ih
    · exact Or.inr ⟨v, t, by simp [List.dropWhile_cons]⟩

theorem interpolate_cons_none_interior (t : List (Option ℝ)) (vk : ℝ)
    (t2 : List (Option ℝ)) (vi : ℝ) (hr : t.dropWhile Option.isNone = some vk :: t2) :
    interpolate (some vi) (none :: t) =
      (interpGapVals vi vk ((t.takeWhile Option.isNone).length + 1)).map some ++
        (some vk :: interpolate (some vk) t2) := by
  rw [interpolate.eq_def]
  simp only [hr, List.head?_cons]
  rw [interpolate_cons_some]

theorem interpolate_cons_none_trailing (t : List (Option ℝ)) (vi : ℝ)
    (hr : t.dropWhile Option.isNone = []) :
    interpolate (some vi) (none :: t) =
      List.replicate ((t.takeWhile Option.isNone).length + 1) (some vi) := by
  rw [interpolate.eq_def]
  simp only [hr, List.head?_nil, interpolate_nil, List.append_nil]

theorem interpolate_cons_none_leading (t : List (Option ℝ)) :
    interpolate none (none :: t) =
      List.replicate ((t.takeWhile Option.isNone).length + 1) (none : Option ℝ) ++
        interpolate none (t.dropWhile Option.isNone) := by
  rw [interpolate.eq_def]

theorem takeWhile_dropWhile_length (t : List (Option ℝ)) :
    (t.takeWhile Option.isNone).length + (t.dropWhile Option.isNone).length = t.length := by
  conv_rhs => rw [← List.takeWhile_append_dropWhile (p := Option.isNone) (l := t)]
  rw [List.length_append]

theorem interpGapVals_length (vi vk : ℝ) (gap : ℕ) :
    (interpGapVals vi vk gap).length = gap := by
  simp [interpGapVals]

theorem interpolate_length (prev : Option ℝ) (l : List (Option ℝ)) :
    (interpolate prev l).length = l.length := by
  induction prev, l using interpolate.induct with
  | case1 prev => rw [interpolate_nil]
  | case2 prev v t ih => rw [interpolate_cons_some, List.length_cons, ih, List.length_cons]
  | case3 prev t ih =>
    rw [interpolate.eq_def]
    have hlen := takeWhile_dropWhile_length t
    rcases prev with _ | vi
    · simp only [List.length_append, List.length_replicate, ih, List.length_cons]
      omega
    · rcases dropWhile_isNone_shape t with hr | ⟨vk, t2, hr⟩
      · simp only [hr, List.head?_nil, List.length_append, List.length_replicate,
          interpolate_nil, List.length_nil, List.length_cons]
        rw [hr] at hlen
        simp at hlen
        omega
      · simp only [hr, List.head?_cons, List.length_append, List.length_map,
          interpGapVals_length, List.length_cons]
        rw [hr] at ih hlen
        rw [ih]
        simp only [List.length_cons] at hlen ⊢
        omega

theorem interpolate_mem_of (P : ℝ → Prop)
    (hconv : ∀ a b w : ℝ, P a → P b → 0 ≤ w → w ≤ 1 → P (a + (b - a) * w)) :
    ∀ (prev : Option ℝ) (l : List (Option ℝ)),
      (∀ v, prev = some v → P v) → (∀ v, some v ∈ l → P v) →
      ∀ v, some v ∈ interpolate prev l → P v := by
  intro prev l
  induction prev, l using interpolate.induct with
  | case1 prev =>
    intro _ _ v hv
    rw [interpolate_nil] at hv
    simp at hv
  | case2 prev v t ih =>
    intro hprev h w hw
    rw [interpolate_cons_some] at hw
    rcases List.mem_cons.mp hw with hw | hw
    · have := h v (List.mem_cons_self _ _)
      rw [Option.some.injEq] at hw
      rwa [hw]
    · exact ih (fun u hu => by
        rw [Option.some.injEq] at hu
        rw [← hu]
        exact h v (List.mem_cons_self _ _))
        (fun u hu => h u (List.mem_cons_of_mem _ hu)) w hw
  | case3 prev t ih =>
    intro hprev h w hw
    rw [interpolate.eq_def] at hw
    have hdropmem : ∀ u, some u ∈ t.dropWhile Option.isNone → P u := fun u hu =>
      h u (List.mem_cons_of_mem _ ((List.dropWhile_sublist (p := Option.isNone)).subset hu))
    rcases List.mem_append.mp hw with hw | hw
    · rcases prev with _ | vi
      · exact absurd (List.eq_of_mem_replicate hw) (by simp)
      · have hvi : P vi := hprev vi rfl
        rcases hh : (t.dropWhile Option.isNone).head? with _ | o
        · rw [hh] at hw
          simp only at hw
          have := List.eq_of_mem_replicate hw
          rw [Option.some.injEq] at this
          rwa [this]
        · rcases o with _ | vk
          · rw [hh] at hw
            simp only at hw
            have := List.eq_of_mem_replicate hw
            rw [Option.some.injEq] at this
            rwa [this]
          · rw [hh] at hw
            simp only at hw
            have hvk : P vk := hdropmem vk (List.mem_of_mem_head? (by rw [hh]; rfl))
            rw [List.mem_map] at hw
            obtain ⟨x, hx, hxw⟩ := hw
            rw [Option.some.injEq] at hxw
            rw [← hxw]
            rw [interpGapVals, List.mem_map] at hx
            obtain ⟨m, hm, rfl⟩ := hx
            rw [List.mem_range] at hm
            set g := (t.takeWhile Option.isNone).length + 1 with hg
            apply hconv _ _ _ hvi hvk
            · positivity
            · rw [div_le_one (by positivity)]
              have h2 : ((m : ℕ) : ℝ) + 1 ≤ ((g : ℕ) : ℝ) := by exact_mod_cast hm
              push_cast at h2 ⊢
              linarith
    · exact ih hprev hdropmem w hw

theorem interpolate_mem_pos (prev : Option ℝ) (l : List (Option ℝ))
    (hprev : ∀ v, prev = some v → 0 < v) (h : ∀ v, some v ∈ l → 0 < v) :
    ∀ v, some v ∈ interpolate prev l → 0 < v := by
  apply interpolate_mem_of (fun x => 0 < x) _ prev l hprev h
  intro a b w ha hb hw0 hw1
  rcases eq_or_lt_of_le hw0 with hw | hw
  · rw [← hw]; simpa using ha
  · nlinarith

theorem interpolate_mem_nonneg (prev : Option ℝ) (l : List (Option ℝ))
    (hprev : ∀ v, prev = some v → 0 ≤ v) (h : ∀ v, some v ∈ l → 0 ≤ v) :
    ∀ v, some v ∈ interpolate prev l → 0 ≤ v := by
  apply interpolate_mem_of (fun x => 0 ≤ x) _ prev l hprev h
  intro a b w ha hb hw0 hw1
  nlinarith

theorem maskZeros_mem {l : List (Option ℝ)} {v : ℝ} (h : some v ∈ maskZeros l) :
    some v ∈ l ∧ v ≠ 0 := by
  rw [maskZeros, List.mem_map] at h
  obtain ⟨o, ho, hov⟩ := h
  split_ifs at hov with hz
  subst hov
  refine ⟨ho, ?_⟩
  intro hv0
  apply hz
  rw [hv0]
  simp

theorem countZeroClose_eq_zero {l : List (Option ℝ)} (h : countZeroClose l = 0) :
    ∀ v, some v ∈ l → v ≠ 0 := by
  intro v hv hv0
  rw [countZeroClose, List.countP_eq_zero] at h
  have := h (some v) hv
  apply this
  subst hv0
  simp

theorem handleMissing_pos (closes : List (Option ℝ))
    (hnn : ∀ v, some v ∈ closes → 0 ≤ v) :
    ∀ v, some v ∈ handleMissing closes → 0 < v := by
  intro v hv
  rw [handleMissing] at hv
  by_cases hz : 0 < countZeroClose closes
  · rw [if_pos hz] at hv
    have h1 : ∀ u, some u ∈ (if 0 < countNullClose closes then
        interpolate none closes else closes) → 0 ≤ u := by
      intro u hu
      split_ifs at hu with hn
      · exact interpolate_mem_nonneg none closes (by simp) hnn u hu
      · exact hnn u hu
    refine interpolate_mem_pos none _ (by simp) ?_ v hv
    intro u hu
    have := maskZeros_mem hu
    have h0 := h1 u this.1
    rcases eq_or_lt_of_le h0 with h0' | h0'
    · exact absurd h0'.symm this.2
    · exact h0'
  · rw [if_neg hz] at hv
    have hz0 : countZeroClose closes = 0 := by omega
    have hpos : ∀ u, some u ∈ closes → 0 < u := by
      intro u hu
      rcases eq_or_lt_of_le (hnn u hu) with h0' | h0'
      · exact absurd h0'.symm (countZeroClose_eq_zero hz0 u hu)
      · exact h0'
    split_ifs at hv with hn
    · exact interpolate_mem_pos none closes (by simp) hpos v hv
    · exact hpos v hv

theorem mean_pos {l : List ℝ} (hne : l ≠ []) (h : ∀ x ∈ l, 0 < x) : 0 < mean l := by
  rw [mean]
  have hlen : 0 < (l.length : ℝ) := by
    have := List.length_pos.mpr hne
    exact_mod_cast this
  have hsum : 0 < l.sum := List.sum_pos l h hne
  positivity

theorem clipStep_fst_pos (rows : List (ℤ × ℝ)) (h : ∀ p ∈ rows, 0 < p.2) :
    ∀ p ∈ (clipStep rows).1, 0 < p.2 := by
  intro p hp
  simp only [clipStep] at hp
  split_ifs at hp with h10 hs hn
  · simp only [List.mem_map] at hp
    obtain ⟨r, hr, rfl⟩ := hp
    have hr2 : 0 < r.2 := h r hr
    have hne : rows.map Prod.snd ≠ [] := by
      intro hnil
      have := congrArg List.length hnil
      simp only [List.length_map, List.length_nil] at this
      omega
    have hm : 0 < mean (rows.map Prod.snd) := by
      apply mean_pos hne
      intro x hx
      rw [List.mem_map] at hx
      obtain ⟨q, hq, rfl⟩ := hx
      exact h q hq
    have hs0 : 0 ≤ sampleStd (rows.map Prod.snd) := Real.sqrt_nonneg _
    have hmin : 0 < min (mean (rows.map Prod.snd) + 3 * sampleStd (rows.map Prod.snd)) r.2 :=
      lt_min (by linarith) hr2
    exact lt_of_lt_of_le hmin (le_max_right _ _)
  · exact h p hp
  · exact h p hp
  · exact h p hp

theorem preprocess_ok_parts {rows : List RawRow} {out : List (ℤ × ℝ)} {ws : List Warn}
    (h : preprocess_data rows = .ok (out, ws)) :
    out = (cleanCore rows).1 ∧ 10 ≤ out.length := by
  rw [preprocess_data] at h
  split_ifs at h with hl hw
  · rw [Except.ok.injEq, Prod.mk.injEq] at h
    refine ⟨h.1.symm, ?_⟩
    rw [← h.1]
    omega
  · rw [Except.ok.injEq, Prod.mk.injEq] at h
    refine ⟨h.1.symm, ?_⟩
    rw [← h.1]
    omega

theorem cleanCore_fst (rows : List RawRow) :
    (cleanCore rows).1 = List.insertionSort dateLE (clipStep (preClipRows rows)).1 := by
  rw [cleanCore]

theorem cleanCore_sorted (rows : List RawRow) : List.Sorted dateLE (cleanCore rows).1 := by
  rw [cleanCore_fst]
  exact List.sorted_insertionSort dateLE _

theorem datedRows_close_mem {rows : List RawRow} {v : ℝ}
    (h : some v ∈ (datedRows rows).map Prod.snd) : ∃ r ∈ rows, r.close = some v := by
  rw [List.mem_map] at h
  obtain ⟨p, hp, hp2⟩ := h
  rw [datedRows, List.mem_filterMap] at hp
  obtain ⟨r, hr, hmap⟩ := hp
  rcases hd : r.date with _ | d
  · rw [hd] at hmap
    exact Option.noConfusion hmap
  · rw [hd] at hmap
    rw [Option.map_some', Option.some.injEq] at hmap
    refine ⟨r, hr, ?_⟩
    rw [← hmap] at hp2
    rw [← hp2]

theorem cleanCore_pos (rows : List RawRow)
    (hnn : ∀ r ∈ rows, ∀ c, r.close = some c → 0 ≤ c) :
    ∀ p ∈ (cleanCore rows).1, 0 < p.2 := by
  intro p hp
  rw [cleanCore_fst, List.mem_insertionSort] at hp
  refine clipStep_fst_pos _ ?_ p hp
  intro q hq
  rw [preClipRows, List.mem_filterMap] at hq
  obtain ⟨a, ha, hmap⟩ := hq
  rcases hc : a.2 with _ | c
  · rw [hc] at hmap
    exact Option.noConfusion hmap
  · rw [hc] at hmap
    rw [Option.map_some', Option.some.injEq] at hmap
    have hmem : some c ∈ handleMissing ((datedRows rows).map Prod.snd) := by
      have := (List.of_mem_zip ha).2
      rwa [hc] at this
    have hpos := handleMissing_pos _ ?_ c hmem
    · rw [← hmap]
      exact hpos
    · intro v hv
      obtain ⟨r, hr, hclose⟩ := datedRows_close_mem hv
      exact hnn r hr v hclose

/-- C4 (amended): whenever _preprocess_data succeeds, the cleaned series has
at least 10 rows and dates sorted in non-decreasing order, and, provided no
raw close value is negative, every cleaned close is positive.  As stated the
claim is false: duplicate dates are never removed, so dates need not be
strictly increasing, and a negative raw close can survive cleaning, see the
counterexample. -/
theorem preprocess_clean_spec (rows : List RawRow) (out : List (ℤ × ℝ)) (ws : List Warn)
    (h : preprocess_data rows = .ok (out, ws)) :
    10 ≤ out.length ∧ List.Sorted dateLE out ∧
      ((∀ r ∈ rows, ∀ c, r.close = some c → 0 ≤ c) → ∀ p ∈ out, 0 < p.2) := by
  obtain ⟨hout, hlen⟩ := preprocess_ok_parts h
  subst hout
  exact ⟨hlen, cleanCore_sorted rows, fun hnn => cleanCore_pos rows hnn⟩

theorem clipStep_length (rows : List (ℤ × ℝ)) :
    (clipStep rows).1.length = rows.length := by
  simp only [clipStep]
  split_ifs <;> simp

theorem clamp_eq_self_of_not_outlier {m s v : ℝ} (hs : 0 < s)
    (h : ¬ (3 < |v - m| / s)) :
    max (m - 3 * s) (min (m + 3 * s) v) = v := by
  push_neg at h
  rw [div_le_iff hs] at h
  rw [abs_le] at h
  rw [min_eq_right (by linarith), max_eq_right (by linarith)]

/-- C6: the outlier step of _preprocess_data never changes the row count;
whenever the close standard deviation is positive, the j-th row is clipped
into the band mean plus or minus 3 std exactly when its absolute z-score
exceeds 3 and is left unchanged otherwise (for 10 or fewer rows the guard
skips the step, which is harmless because such a z-score is unattainable at
that length); the outlier count reported for the warning is the number of
closes beyond 3 std, and a positive count puts the clippedOutliers warning
into the cleaning warnings. -/
theorem clip_outliers_spec (rows : List (ℤ × ℝ)) :
    ((clipStep rows).1.length = rows.length) ∧
    (0 < sampleStd (rows.map Prod.snd) → ∀ j, j < rows.length →
      (clipStep rows).1.getD j (0, 0) =
        (if 3 < |(rows.getD j (0, 0)).2 - mean (rows.map Prod.snd)| /
            sampleStd (rows.map Prod.snd) then
          ((rows.getD j (0, 0)).1,
            max (mean (rows.map Prod.snd) - 3 * sampleStd (rows.map Prod.snd))
              (min (mean (rows.map Prod.snd) + 3 * sampleStd (rows.map Prod.snd))
                (rows.getD j (0, 0)).2))
        else rows.getD j (0, 0))) ∧
    (0 < sampleStd (rows.map Prod.snd) →
      (clipStep rows).2 = (rows.map Prod.snd).countP
        fun x => decide (3 < |x - mean (rows.map Prod.snd)| /
          sampleStd (rows.map Prod.snd))) ∧
    (∀ raw : List RawRow, 0 < (clipStep (preClipRows raw)).2 →
      Warn.clippedOutliers (clipStep (preClipRows raw)).2 ∈ (cleanCore raw).2) := by
  refine ⟨clipStep_length rows, ?_, ?_, ?_⟩
  · intro hs j hj
    have hmemj : (rows.getD j (0, 0)).2 ∈ rows.map Prod.snd := by
      rw [List.getD_eq_getElem?_getD, List.getElem?_eq_getElem hj]
      exact List.mem_map_of_mem _ (List.getElem_mem hj)
    by_cases h10 : 10 < rows.length
    · simp only [clipStep, if_pos h10, if_pos hs]
      by_cases hn : 0 < (rows.map Prod.snd).countP
          (fun x => decide (3 < |x - mean (rows.map Prod.snd)| / sampleStd (rows.map Prod.snd)))
      · rw [if_pos hn]
        have hmap : (List.map (fun r => (r.1,
            max (mean (rows.map Prod.snd) - 3 * sampleStd (rows.map Prod.snd))
              (min (mean (rows.map Prod.snd) + 3 * sampleStd (rows.map Prod.snd)) r.2)))
              rows).getD j (0, 0) =
            ((rows.getD j (0, 0)).1,
              max (mean (rows.map Prod.snd) - 3 * sampleStd (rows.map Prod.snd))
                (min (mean (rows.map Prod.snd) + 3 * sampleStd (rows.map Prod.snd))
                  (rows.getD j (0, 0)).2)) := by
          rw [List.getD_eq_getElem?_getD, List.getElem?_map, List.getElem?_eq_getElem hj]
          rw [List.getD_eq_getElem?_getD, List.getElem?_eq_getElem hj]
          rfl
        rw [hmap]
        split_ifs with hz
        · rfl
        · rw [clamp_eq_self_of_not_outlier hs hz]
      · rw [if_neg hn]
        have h0 : (rows.map Prod.snd).countP
            (fun x => decide (3 < |x - mean (rows.map Prod.snd)| /
              sampleStd (rows.map Prod.snd))) = 0 := by omega
        rw [List.countP_eq_zero] at h0
        have hthis := h0 _ hmemj
        simp only [decide_eq_true_eq] at hthis
        rw [if_neg hthis]
    · push_neg at h10
      simp only [clipStep, if_neg (by omega : ¬ 10 < rows.length)]
      have := no_outlier_of_short (rows.map Prod.snd) (by simpa using h10) _ hmemj
      rw [if_neg this]
  · intro hs
    simp only [clipStep]
    by_cases h10 : 10 < rows.length
    · rw [if_pos h10, if_pos hs]
      by_cases hn : 0 < (rows.map Prod.snd).countP
          (fun x => decide (3 < |x - mean (rows.map Prod.snd)| /
            sampleStd (rows.map Prod.snd)))
      · rw [if_pos hn]
      · rw [if_neg hn]
        have h0 : (rows.map Prod.snd).countP
            (fun x => decide (3 < |x - mean (rows.map Prod.snd)| /
              sampleStd (rows.map Prod.snd))) = 0 := by omega
        rw [h0]
    · rw [if_neg h10]
      push_neg at h10
      symm
      rw [List.countP_eq_zero]
      intro x hx
      have := no_outlier_of_short (rows.map Prod.snd) (by simpa using h10) x hx
      simpa using this
  · intro raw hpos
    rw [cleanCore]
    simp only [List.mem_append]
    right
    rw [if_pos hpos]
    exact List.mem_singleton_self _

theorem clipStep_eq_self_of_no_outliers (rows : List (ℤ × ℝ))
    (h : ∀ x ∈ rows.map Prod.snd,
      ¬ (3 < |x - mean (rows.map Prod.snd)| / sampleStd (rows.map Prod.snd))) :
    clipStep rows = (rows, 0) := by
  simp only [clipStep]
  by_cases h10 : 10 < rows.length
  · rw [if_pos h10]
    by_cases hs : 0 < sampleStd (rows.map Prod.snd)
    · rw [if_pos hs]
      have h0 : (rows.map Prod.snd).countP
          (fun x => decide (3 < |x - mean (rows.map Prod.snd)| /
            sampleStd (rows.map Prod.snd))) = 0 := by
        rw [List.countP_eq_zero]
        intro x hx
        simpa using h x hx
      rw [h0]
      simp
    · rw [if_neg hs]
  · rw [if_neg h10]

/-- Cleaned rows re-wrapped as raw history rows, for feeding a cleaned
series back into the preprocessor. -/
def toRawRows (rows : List (ℤ × ℝ)) : List RawRow :=
  rows.map fun p => ⟨some p.1, some p.2⟩

theorem datedRows_toRawRows (out : List (ℤ × ℝ)) :
    datedRows (toRawRows out) = out.map fun p => (p.1, some p.2) := by
  induction out with
  | nil => rfl
  | cons a t ih =>
    rw [toRawRows, List.map_cons, datedRows, List.filterMap_cons]
    simp only [Option.map_some']
    rw [datedRows, toRawRows] at ih
    rw [ih, List.map_cons]

theorem handleMissing_eq_self (closes : List (Option ℝ))
    (hnull : countNullClose closes = 0) (hzero : countZeroClose closes = 0) :
    handleMissing closes = closes := by
  rw [handleMissing]
  simp only [hnull, hzero]
  norm_num

theorem preClipRows_toRawRows (out : List (ℤ × ℝ)) (hz : ∀ p ∈ out, p.2 ≠ 0) :
    preClipRows (toRawRows out) = out := by
  rw [preClipRows, datedRows_toRawRows]
  have hnull : countNullClose ((out.map fun p => ((p.1 : ℤ), some p.2)).map Prod.snd) = 0 := by
    rw [countNullClose, List.countP_eq_zero]
    intro o ho
    rw [List.map_map, List.mem_map] at ho
    obtain ⟨p, _, rfl⟩ := ho
    simp
  have hzero : countZeroClose ((out.map fun p => ((p.1 : ℤ), some p.2)).map Prod.snd) = 0 := by
    rw [countZeroClose, List.countP_eq_zero]
    intro o ho
    rw [List.map_map, List.mem_map] at ho
    obtain ⟨p, hp, rfl⟩ := ho
    simp only [Function.comp_apply, Option.map_some', Option.getD_some]
    simpa using hz p hp
  rw [handleMissing_eq_self _ hnull hzero]
  rw [List.map_map, List.map_map, List.zip_map']
  rw [List.filterMap_map]
  clear hz hnull hzero
  induction out with
  | nil => rfl
  | cons a t ih =>
    show a :: List.filterMap _ t = a :: t
    rw [ih]

theorem countNullClose_toRaw (out : List (ℤ × ℝ)) :
    countNullClose ((out.map fun p => ((p.1 : ℤ), some p.2)).map Prod.snd) = 0 := by
  rw [countNullClose, List.countP_eq_zero]
  intro o ho
  rw [List.map_map, List.mem_map] at ho
  obtain ⟨p, _, rfl⟩ := ho
  simp

theorem countZeroClose_toRaw (out : List (ℤ × ℝ)) (hz : ∀ p ∈ out, p.2 ≠ 0) :
    countZeroClose ((out.map fun p => ((p.1 : ℤ), some p.2)).map Prod.snd) = 0 := by
  rw [countZeroClose, List.countP_eq_zero]
  intro o ho
  rw [List.map_map, List.mem_map] at ho
  obtain ⟨p, hp, rfl⟩ := ho
  simp only [Function.comp_apply, Option.map_some', Option.getD_some]
  simpa using hz p hp

/-- C5 (amended): re-cleaning a cleaned series returns it unchanged with no
warnings, provided the cleaned series contains no exactly-zero close (which
the zero-handling step would blank out again) and no close beyond 3 sample
standard deviations of the series mean (which the outlier step would re-clip
against the tighter post-clip statistics).  Unconditional idempotence, as
the claim states it, is false: a clipped outlier can exceed 3 standard
deviations of the new statistics and is then clipped again, see the
counterexample. -/
theorem preprocess_idempotent (rows : List RawRow) (out : List (ℤ × ℝ)) (ws : List Warn)
    (h : preprocess_data rows = .ok (out, ws))
    (hz : ∀ p ∈ out, p.2 ≠ 0)
    (hno : ∀ x ∈ out.map Prod.snd,
      ¬ (3 < |x - mean (out.map Prod.snd)| / sampleStd (out.map Prod.snd))) :
    preprocess_data (toRawRows out) = .ok (out, []) := by
  obtain ⟨hout, hlen⟩ := preprocess_ok_parts h
  have hsorted : List.Sorted dateLE out := by
    rw [hout]
    exact cleanCore_sorted rows
  have hdated := datedRows_toRawRows out
  have hlenRaw : (toRawRows out).length = out.length := by
    rw [toRawRows, List.length_map]
  have hpre := preClipRows_toRawRows out hz
  have hclip : clipStep (preClipRows (toRawRows out)) = (out, 0) := by
    rw [hpre]
    exact clipStep_eq_self_of_no_outliers out hno
  have hclean : cleanCore (toRawRows out) = (out, []) := by
    simp only [cleanCore, hdated, hclip]
    rw [List.length_map, hlenRaw]
    simp only [Nat.sub_self, lt_irrefl, if_false]
    rw [countNullClose_toRaw out, countZeroClose_toRaw out hz]
    simp only [lt_irrefl, if_false, List.append_nil, List.nil_append]
    rw [hsorted.insertionSort_eq]
  rw [preprocess_data]
  simp only [hclean]
  rw [if_neg (by omega : ¬ out.length < 10)]
  rw [hlenRaw]
  have hq : ¬ ((out.length : ℚ) < 7 / 10 * (out.length : ℚ)) := by
    have h0 : (0 : ℚ) ≤ (out.length : ℚ) := by positivity
    intro hc
    nlinarith
  rw [if_neg hq]
  rfl

theorem mean_rep15 (a b : ℝ) :
    mean (List.replicate 15 a ++ [b]) = a + (b - a) / 16 := by
  rw [mean]
  simp only [List.sum_append, List.sum_replicate, List.sum_cons, List.sum_nil,
    List.length_append, List.length_replicate, List.length_cons, List.length_nil,
    nsmul_eq_mul]
  push_cast
  ring

theorem sampleVar_rep15 (a b : ℝ) :
    sampleVar (List.replicate 15 a ++ [b]) = (b - a) ^ 2 / 16 := by
  rw [sampleVar, mean_rep15]
  simp only [List.map_append, List.map_replicate, List.map_cons, List.map_nil,
    List.sum_append, List.sum_replicate, List.sum_cons, List.sum_nil,
    List.length_append, List.length_replicate, List.length_cons, List.length_nil,
    nsmul_eq_mul]
  push_cast
  field_simp
  ring

theorem sampleStd_rep15 (a b : ℝ) :
    sampleStd (List.replicate 15 a ++ [b]) = |b - a| / 4 := by
  rw [sampleStd, sampleVar_rep15]
  rw [show (b - a) ^ 2 / 16 = ((b - a) / 4) ^ 2 by ring]
  rw [Real.sqrt_sq_eq_abs, abs_div]
  norm_num

theorem countP_replicate_false {p : ℝ → Bool} {a : ℝ} (h : ¬ p a = true) (n : ℕ) :
    (List.replicate n a).countP p = 0 := by
  induction n with
  | zero => rfl
  | succ n ih =>
    rw [List.replicate_succ, List.countP_cons]
    simp [h, ih]

theorem clipStep_rep15 (rows : List (ℤ × ℝ)) (a b : ℝ) (hab : a ≠ b)
    (hcl : rows.map Prod.snd = List.replicate 15 a ++ [b]) :
    clipStep rows =
      (rows.map fun r => (r.1,
        max (a + (b - a) / 16 - 3 * (|b - a| / 4))
          (min (a + (b - a) / 16 + 3 * (|b - a| / 4)) r.2)), 1) := by
  have hlen : rows.length = 16 := by
    have := congrArg List.length hcl
    simpa using this
  have habs : 0 < |b - a| := abs_pos.mpr (sub_ne_zero.mpr (Ne.symm hab))
  have hm : mean (rows.map Prod.snd) = a + (b - a) / 16 := by rw [hcl, mean_rep15]
  have hs : sampleStd (rows.map Prod.snd) = |b - a| / 4 := by rw [hcl, sampleStd_rep15]
  have hne : |b - a| ≠ 0 := ne_of_gt habs
  have hza : ¬ (3 < |a - (a + (b - a) / 16)| / (|b - a| / 4)) := by
    have h1 : |a - (a + (b - a) / 16)| = |b - a| / 16 := by
      rw [show a - (a + (b - a) / 16) = -((b - a) / 16) by ring, abs_neg, abs_div]
      norm_num
    have h2 : |b - a| / 16 / (|b - a| / 4) = 1 / 4 := by
      field_simp
      ring
    rw [h1, h2]
    norm_num
  have hzb : 3 < |b - (a + (b - a) / 16)| / (|b - a| / 4) := by
    have h1 : |b - (a + (b - a) / 16)| = 15 / 16 * |b - a| := by
      rw [show b - (a + (b - a) / 16) = (15 / 16) * (b - a) by ring, abs_mul]
      norm_num
    have h2 : 15 / 16 * |b - a| / (|b - a| / 4) = 15 / 4 := by
      field_simp
      ring
    rw [h1, h2]
    norm_num
  have hcount : (rows.map Prod.snd).countP
      (fun x => decide (3 < |x - mean (rows.map Prod.snd)| /
        sampleStd (rows.map Prod.snd))) = 1 := by
    rw [hm, hs, hcl, List.countP_append]
    rw [countP_replicate_false (by simpa using hza)]
    rw [List.countP_cons]
    simp only [List.countP_nil]
    rw [if_pos (by simpa using hzb)]
  simp only [clipStep]
  rw [if_pos (by omega : 10 < rows.length)]
  rw [if_pos (by rw [hs]; positivity)]
  rw [hcount]
  rw [if_pos (by norm_num)]
  rw [hm, hs]

theorem cleanCore_toRawRows (out : List (ℤ × ℝ)) (hz : ∀ p ∈ out, p.2 ≠ 0) :
    cleanCore (toRawRows out) = (List.insertionSort dateLE (clipStep out).1,
      if 0 < (clipStep out).2 then [Warn.clippedOutliers (clipStep out).2] else []) := by
  have hdated := datedRows_toRawRows out
  have hlenRaw : (toRawRows out).length = out.length := by
    rw [toRawRows, List.length_map]
  have hpre := preClipRows_toRawRows out hz
  simp only [cleanCore, hdated, hpre]
  rw [List.length_map, hlenRaw]
  simp only [Nat.sub_self, lt_irrefl, if_false]
  rw [countNullClose_toRaw out, countZeroClose_toRaw out hz]
  simp only [lt_irrefl, if_false, List.nil_append]

theorem preprocess_toRawRows (out : List (ℤ × ℝ)) (hz : ∀ p ∈ out, p.2 ≠ 0)
    (hlen : 10 ≤ out.length) :
    preprocess_data (toRawRows out) = .ok (List.insertionSort dateLE (clipStep out).1,
      if 0 < (clipStep out).2 then [Warn.clippedOutliers (clipStep out).2] else []) := by
  have hslen : (List.insertionSort dateLE (clipStep out).1).length = out.length := by
    rw [(List.perm_insertionSort dateLE _).length_eq, clipStep_length]
  have hlenRaw : (toRawRows out).length = out.length := by
    rw [toRawRows, List.length_map]
  rw [preprocess_data]
  simp only [cleanCore_toRawRows out hz]
  rw [hslen, hlenRaw]
  rw [if_neg (by omega : ¬ out.length < 10)]
  have hq : ¬ ((out.length : ℚ) < 7 / 10 * (out.length : ℚ)) := by
    have h0 : (0 : ℚ) ≤ (out.length : ℚ) := by positivity
    intro hc
    nlinarith
  rw [if_neg hq, List.append_nil]

theorem sorted_rangeRows (n : ℕ) (c : ℝ) :
    List.Sorted dateLE ((List.range n).map fun (i : ℕ) => ((i : ℤ), c)) := by
  rw [List.Sorted, List.pairwise_map]
  apply List.Pairwise.imp _ (List.pairwise_lt_range n)
  intro i j hij
  show (i : ℤ) ≤ (j : ℤ)
  exact_mod_cast le_of_lt hij

theorem sorted_append_last {l : List (ℤ × ℝ)} {p : ℤ × ℝ} (h : List.Sorted dateLE l)
    (hall : ∀ q ∈ l, dateLE q p) : List.Sorted dateLE (l ++ [p]) := by
  rw [List.Sorted, List.pairwise_append]
  exact ⟨h, List.pairwise_singleton _ _, fun a ha b hb => by
    rw [List.mem_singleton] at hb
    rw [hb]
    exact hall a ha⟩

/-- Rows with dates 0..n-1 and a constant close, used as concrete inputs. -/
noncomputable def rangeRows (n : ℕ) (c : ℝ) : List (ℤ × ℝ) :=
  (List.range n).map fun (i : ℕ) => ((i : ℤ), c)

theorem rangeRows_map_snd (n : ℕ) (c : ℝ) :
    (rangeRows n c).map Prod.snd = List.replicate n c := by
  rw [rangeRows, List.map_map]
  have h1 : (Prod.snd ∘ fun (i : ℕ) => ((i : ℤ), c)) = fun _ => c := rfl
  rw [h1, List.map_const', List.length_range]

theorem spikeRows_map_snd (n : ℕ) (a b : ℝ) (d : ℤ) :
    ((rangeRows n a) ++ [(d, b)]).map Prod.snd = List.replicate n a ++ [b] := by
  rw [List.map_append, rangeRows_map_snd]
  rfl

theorem spikeRows_length (n : ℕ) (a b : ℝ) (d : ℤ) :
    ((rangeRows n a) ++ [(d, b)]).length = n + 1 := by
  rw [List.length_append, rangeRows, List.length_map, List.length_range]
  rfl

theorem spikeRows_closes_ne (n : ℕ) (a b : ℝ) (d : ℤ) (ha : a ≠ 0) (hb : b ≠ 0) :
    ∀ p ∈ rangeRows n a ++ [(d, b)], p.2 ≠ 0 := by
  intro p hp
  rcases List.mem_append.mp hp with hp | hp
  · rw [rangeRows, List.mem_map] at hp
    obtain ⟨i, _, rfl⟩ := hp
    exact ha
  · rw [List.mem_singleton] at hp
    rw [hp]
    exact hb

theorem rangeRows_closes_ne (n : ℕ) (c : ℝ) (hc : c ≠ 0) :
    ∀ p ∈ rangeRows n c, p.2 ≠ 0 := by
  intro p hp
  rw [rangeRows, List.mem_map] at hp
  obtain ⟨i, _, rfl⟩ := hp
  exact hc

theorem spikeRows_sorted (n : ℕ) (a b : ℝ) (d : ℤ) (hd : (n : ℤ) ≤ d + 1) :
    List.Sorted dateLE (rangeRows n a ++ [(d, b)]) := by
  apply sorted_append_last (sorted_rangeRows n a)
  intro q hq
  rw [List.mem_map] at hq
  obtain ⟨i, hi, rfl⟩ := hq
  rw [List.mem_range] at hi
  show (i : ℤ) ≤ d
  have : (i : ℤ) < (n : ℤ) := by exact_mod_cast hi
  omega

theorem spikeMap_eval (a b lo hi b' : ℝ) (d : ℤ) (hlo : lo ≤ a) (hhi : a ≤ hi)
    (hb : max lo (min hi b) = b') :
    (rangeRows 15 a ++ [(d, b)]).map (fun r => (r.1, max lo (min hi r.2))) =
      rangeRows 15 a ++ [(d, b')] := by
  rw [List.map_append]
  congr 1
  · rw [rangeRows, List.map_map]
    apply List.map_congr_left
    intro i _
    show ((i : ℤ), max lo (min hi a)) = ((i : ℤ), a)
    rw [min_eq_right hhi, max_eq_right hlo]
  · show [(d, max lo (min hi b))] = [(d, b')]
    rw [hb]

theorem preprocess_spike_eval (a b b' s : ℝ) (d : ℤ) (ha : a ≠ 0) (hb : b ≠ 0)
    (hab : a ≠ b) (habs : |b - a| = s) (hd : (15 : ℤ) ≤ d + 1)
    (hlo : a + (b - a) / 16 - 3 * (s / 4) ≤ a)
    (hhi : a ≤ a + (b - a) / 16 + 3 * (s / 4))
    (hb2 : max (a + (b - a) / 16 - 3 * (s / 4))
      (min (a + (b - a) / 16 + 3 * (s / 4)) b) = b') :
    preprocess_data (toRawRows (rangeRows 15 a ++ [(d, b)])) =
      .ok (rangeRows 15 a ++ [(d, b')], [Warn.clippedOutliers 1]) := by
  have hz := spikeRows_closes_ne 15 a b d ha hb
  have hlen : 10 ≤ (rangeRows 15 a ++ [(d, b)]).length := by
    rw [spikeRows_length]
    omega
  rw [preprocess_toRawRows _ hz hlen]
  have hclip := clipStep_rep15 (rangeRows 15 a ++ [(d, b)]) a b hab
    (spikeRows_map_snd 15 a b d)
  rw [habs] at hclip
  rw [hclip]
  dsimp only
  rw [spikeMap_eval a b _ _ b' d hlo hhi hb2]
  rw [(spikeRows_sorted 15 a b' d hd).insertionSort_eq]
  norm_num

theorem preprocess_spike116 :
    preprocess_data (toRawRows (rangeRows 15 100 ++ [(15, 116)])) =
      .ok (rangeRows 15 100 ++ [(15, 113)], [Warn.clippedOutliers 1]) := by
  apply preprocess_spike_eval 100 116 113 16 15 (by norm_num) (by norm_num) (by norm_num)
  · rw [show (116 : ℝ) - 100 = 16 by norm_num]
    exact abs_of_nonneg (by norm_num)
  · norm_num
  · norm_num
  · norm_num
  · rw [show (100 : ℝ) + (116 - 100) / 16 - 3 * (16 / 4) = 89 by norm_num,
      show (100 : ℝ) + (116 - 100) / 16 + 3 * (16 / 4) = 113 by norm_num]
    rw [min_eq_left (by norm_num), max_eq_right (by norm_num)]

theorem preprocess_spike113 :
    preprocess_data (toRawRows (rangeRows 15 100 ++ [(15, 113)])) =
      .ok (rangeRows 15 100 ++ [(15, 1769 / 16)], [Warn.clippedOutliers 1]) := by
  apply preprocess_spike_eval 100 113 (1769 / 16) 13 15 (by norm_num) (by norm_num)
    (by norm_num)
  · rw [show (113 : ℝ) - 100 = 13 by norm_num]
    exact abs_of_nonneg (by norm_num)
  · norm_num
  · norm_num
  · norm_num
  · rw [show (100 : ℝ) + (113 - 100) / 16 - 3 * (13 / 4) = 1457 / 16 by norm_num,
      show (100 : ℝ) + (113 - 100) / 16 + 3 * (13 / 4) = 1769 / 16 by norm_num]
    rw [min_eq_left (by norm_num), max_eq_right (by norm_num)]

/-- C5 counterexample: the 16-row series with dates 0..15, closes fifteen
100s and one 116, cleans to the same series with the 116 clipped to 113; but
re-cleaning that output clips the 113 again, to 110.5625, because the first
clip tightened the mean and standard deviation.  The preprocessor is
therefore not idempotent on its own outputs. -/
theorem preprocess_idem_cex :
    preprocess_data (toRawRows (rangeRows 15 100 ++ [(15, 116)])) =
      .ok (rangeRows 15 100 ++ [(15, 113)], [Warn.clippedOutliers 1]) ∧
    preprocess_data (toRawRows (rangeRows 15 100 ++ [(15, 113)])) =
      .ok (rangeRows 15 100 ++ [(15, 1769 / 16)], [Warn.clippedOutliers 1]) ∧
    rangeRows 15 100 ++ [((15 : ℤ), (113 : ℝ))] ≠
      rangeRows 15 100 ++ [(15, 1769 / 16)] := by
  refine ⟨preprocess_spike116, preprocess_spike113, ?_⟩
  intro heq
  have h2 := List.append_cancel_left heq
  rw [List.cons.injEq, Prod.mk.injEq] at h2
  have := h2.1.2
  norm_num at this

theorem dupNeg_map_snd :
    ((rangeRows 14 100 ++ [((13 : ℤ), (100 : ℝ)), (14, -100)]).map Prod.snd) =
      List.replicate 15 (100 : ℝ) ++ [-100] := by
  rw [List.map_append, rangeRows_map_snd]
  rw [show (List.replicate 15 (100 : ℝ)) = List.replicate 14 (100 : ℝ) ++ [100] by
    rw [← List.replicate_succ']]
  rw [List.append_assoc]
  rfl

theorem dupNeg_closes_ne :
    ∀ p ∈ rangeRows 14 100 ++ [((13 : ℤ), (100 : ℝ)), (14, -100)], p.2 ≠ 0 := by
  intro p hp
  rcases List.mem_append.mp hp with hp | hp
  · exact rangeRows_closes_ne 14 100 (by norm_num) p hp
  · rcases List.mem_cons.mp hp with hp | hp
    · rw [hp]; norm_num
    · rw [List.mem_singleton] at hp
      rw [hp]; norm_num

theorem dupNeg_out_sorted :
    List.Sorted dateLE (rangeRows 14 100 ++ [((13 : ℤ), (100 : ℝ)), (14, -125 / 2)]) := by
  rw [List.Sorted, List.pairwise_append]
  refine ⟨sorted_rangeRows 14 100, ?_, ?_⟩
  · rw [List.pairwise_cons]
    refine ⟨?_, List.pairwise_singleton _ _⟩
    intro q hq
    rw [List.mem_singleton] at hq
    rw [hq]
    show (13 : ℤ) ≤ 14
    omega
  · intro q hq r hr
    rw [rangeRows, List.mem_map] at hq
    obtain ⟨i, hi, rfl⟩ := hq
    rw [List.mem_range] at hi
    have hiz : (i : ℤ) ≤ 13 := by
      have : (i : ℤ) < 14 := by exact_mod_cast hi
      omega
    rcases List.mem_cons.mp hr with hr | hr
    · rw [hr]; exact hiz
    · rw [List.mem_singleton] at hr
      rw [hr]
      show (i : ℤ) ≤ 14
      omega

theorem preprocess_dupNeg :
    preprocess_data (toRawRows (rangeRows 14 100 ++ [((13 : ℤ), (100 : ℝ)), (14, -100)])) =
      .ok (rangeRows 14 100 ++ [((13 : ℤ), (100 : ℝ)), (14, -125 / 2)],
        [Warn.clippedOutliers 1]) := by
  have hlen : 10 ≤ (rangeRows 14 100 ++ [((13 : ℤ), (100 : ℝ)), (14, -100)]).length := by
    rw [List.length_append, rangeRows, List.length_map, List.length_range]
    norm_num
  rw [preprocess_toRawRows _ dupNeg_closes_ne hlen]
  have hclip := clipStep_rep15 _ 100 (-100) (by norm_num) dupNeg_map_snd
  rw [show |(-100 : ℝ) - 100| = 200 by
    rw [show (-100 : ℝ) - 100 = -200 by norm_num, abs_neg]
    exact abs_of_nonneg (by norm_num)] at hclip
  rw [show (100 : ℝ) + (-100 - 100) / 16 - 3 * (200 / 4) = -125 / 2 by norm_num,
    show (100 : ℝ) + (-100 - 100) / 16 + 3 * (200 / 4) = 475 / 2 by norm_num] at hclip
  rw [hclip]
  dsimp only
  have hmap : (rangeRows 14 100 ++ [((13 : ℤ), (100 : ℝ)), (14, -100)]).map
      (fun r => (r.1, max (-125 / 2 : ℝ) (min (475 / 2) r.2))) =
      rangeRows 14 100 ++ [((13 : ℤ), (100 : ℝ)), (14, -125 / 2)] := by
    rw [List.map_append]
    congr 1
    · rw [rangeRows, List.map_map]
      apply List.map_congr_left
      intro i _
      show ((i : ℤ), max (-125 / 2 : ℝ) (min (475 / 2) 100)) = ((i : ℤ), (100 : ℝ))
      rw [min_eq_right (by norm_num), max_eq_right (by norm_num)]
    · show [((13 : ℤ), max (-125 / 2 : ℝ) (min (475 / 2) 100)),
        ((14 : ℤ), max (-125 / 2 : ℝ) (min (475 / 2) (-100)))] =
        [((13 : ℤ), (100 : ℝ)), (14, -125 / 2)]
      rw [min_eq_right (by norm_num : (100 : ℝ) ≤ 475 / 2),
        max_eq_right (by norm_num : (-125 / 2 : ℝ) ≤ 100)]
      rw [min_eq_right (by norm_num : (-100 : ℝ) ≤ 475 / 2),
        max_eq_left (by norm_num : (-100 : ℝ) ≤ -125 / 2)]
  rw [hmap]
  rw [dupNeg_out_sorted.insertionSort_eq]
  norm_num

/-- C4 counterexample: a successfully cleaned series whose closes are not
all positive and whose dates are not strictly increasing.  The input has 16
parseable rows, a duplicated date 13, and one close of -100; cleaning
succeeds (16 rows remain), the duplicate date survives, and the -100 is
clipped only to -62.5, which is still negative. -/
theorem preprocess_clean_cex :
    preprocess_data (toRawRows (rangeRows 14 100 ++ [((13 : ℤ), (100 : ℝ)), (14, -100)])) =
      .ok (rangeRows 14 100 ++ [((13 : ℤ), (100 : ℝ)), (14, -125 / 2)],
        [Warn.clippedOutliers 1]) ∧
    ¬ ((∀ p ∈ rangeRows 14 100 ++ [((13 : ℤ), (100 : ℝ)), (14, -125 / 2)], 0 < p.2) ∧
       List.Chain' (fun a b : ℤ × ℝ => a.1 < b.1)
         (rangeRows 14 100 ++ [((13 : ℤ), (100 : ℝ)), (14, -125 / 2)])) := by
  refine ⟨preprocess_dupNeg, ?_⟩
  intro h
  have := h.1 ((14 : ℤ), (-125 / 2 : ℝ)) (by
    rw [List.mem_append]
    right
    rw [List.mem_cons, List.mem_singleton]
    right
    rfl)
  norm_num at this

theorem preprocess_clean10 :
    preprocess_data (toRawRows (rangeRows 10 100)) = .ok (rangeRows 10 100, []) := by
  have hlen : (rangeRows 10 (100 : ℝ)).length = 10 := by
    rw [rangeRows, List.length_map, List.length_range]
  rw [preprocess_toRawRows _ (rangeRows_closes_ne 10 100 (by norm_num)) (by omega)]
  have hclip : clipStep (rangeRows 10 100) = (rangeRows 10 100, 0) := by
    simp only [clipStep]
    rw [if_neg (by omega : ¬ 10 < (rangeRows 10 (100 : ℝ)).length)]
  rw [hclip]
  dsimp only
  have hs : List.Sorted dateLE (rangeRows 10 100) := sorted_rangeRows 10 100
  rw [hs.insertionSort_eq]
  norm_num

/-- Witness for preprocess_clean_spec on a clean 10-row series. -/
theorem preprocess_clean_spec_witness :
    10 ≤ (rangeRows 10 100).length ∧ List.Sorted dateLE (rangeRows 10 100) ∧
      ∀ p ∈ rangeRows 10 100, 0 < p.2 := by
  have h := preprocess_clean_spec (toRawRows (rangeRows 10 100)) (rangeRows 10 100) []
    preprocess_clean10
  refine ⟨h.1, h.2.1, h.2.2 ?_⟩
  intro r hr c hc
  rw [toRawRows, List.mem_map] at hr
  obtain ⟨p, hp, rfl⟩ := hr
  rw [rangeRows, List.mem_map] at hp
  obtain ⟨i, _, rfl⟩ := hp
  simp only [Option.some.injEq] at hc
  rw [← hc]
  norm_num

/-- Witness for preprocess_idempotent: re-cleaning the clean 10-row series
returns it unchanged with no warnings. -/
theorem preprocess_idempotent_witness :
    preprocess_data (toRawRows (rangeRows 10 100)) = .ok (rangeRows 10 100, []) := by
  have hmean : mean ((rangeRows 10 100).map Prod.snd) = 100 := by
    rw [rangeRows_map_snd, mean]
    simp only [List.sum_replicate, List.length_replicate, nsmul_eq_mul]
    norm_num
  apply preprocess_idempotent (toRawRows (rangeRows 10 100)) _ []
    preprocess_clean10 (rangeRows_closes_ne 10 100 (by norm_num))
  intro x hx
  rw [rangeRows_map_snd] at hx
  have hx100 : x = 100 := List.eq_of_mem_replicate hx
  rw [hx100, hmean]
  norm_num

theorem c6_spike_std :
    sampleStd ((rangeRows 15 4 ++ [((15 : ℤ), (40 : ℝ))]).map Prod.snd) = 9 := by
  rw [spikeRows_map_snd, sampleStd_rep15]
  rw [show (40 : ℝ) - 4 = 36 by norm_num]
  rw [abs_of_nonneg (by norm_num : (0 : ℝ) ≤ 36)]
  norm_num

theorem c6_spike_mean :
    mean ((rangeRows 15 4 ++ [((15 : ℤ), (40 : ℝ))]).map Prod.snd) = 25 / 4 := by
  rw [spikeRows_map_snd, mean_rep15]
  norm_num

/-- Witness for clip_outliers_spec: a 16-row series of closes 4 with one
spike 40 (ten times the level of the others) keeps all 16 rows, and the
spike is clipped to 33.25, the mean plus 3 standard deviations. -/
theorem clip_outliers_spec_witness :
    (clipStep (rangeRows 15 4 ++ [((15 : ℤ), (40 : ℝ))])).1.length = 16 ∧
    (clipStep (rangeRows 15 4 ++ [((15 : ℤ), (40 : ℝ))])).1.getD 15 (0, 0) =
      (15, 133 / 4) := by
  constructor
  · rw [(clip_outliers_spec _).1, spikeRows_length]
  · have hlen : (rangeRows 15 (4 : ℝ) ++ [((15 : ℤ), (40 : ℝ))]).length = 16 :=
      spikeRows_length 15 4 40 15
    have h := (clip_outliers_spec (rangeRows 15 4 ++ [((15 : ℤ), (40 : ℝ))])).2.1
      (by rw [c6_spike_std]; norm_num) 15 (by omega)
    rw [h]
    have hg : (rangeRows 15 (4 : ℝ) ++ [((15 : ℤ), (40 : ℝ))]).getD 15 ((0 : ℤ), (0 : ℝ)) =
        (15, 40) := by
      have hr : (rangeRows 15 (4 : ℝ)).length = 15 := by
        rw [rangeRows, List.length_map, List.length_range]
      rw [List.getD_eq_getElem?_getD, List.getElem?_append_right (by omega)]
      rw [hr]
      rfl
    rw [hg, c6_spike_mean, c6_spike_std]
    rw [if_pos (by
      rw [show (40 : ℝ) - 25 / 4 = 135 / 4 by norm_num]
      rw [abs_of_nonneg (by norm_num : (0 : ℝ) ≤ 135 / 4)]
      norm_num)]
    rw [min_eq_left (by norm_num), max_eq_right (by norm_num)]
    norm_num

/-- Feature names produced by _create_features (ml_service.py lines
143-195), as an enumeration; the date and close columns themselves are kept
separately by the pipeline and are never feature candidates. -/
inductive Feat
  | days | lag1 | lag3 | lag5 | lag7
  | rollingMean5 | rollingMean10 | rollingMean20
  | rollingStd5 | rollingStd10 | rollingStd20
  | logReturn | cumulativeReturn | volatility | dayOfWeek | momentum5 | rsi
deriving DecidableEq, BEq, Repr

/-- A feature table: columns keyed by feature name, with missing entries
(NaN) as none, mirroring the dataframe built by _create_features. -/
def FTable : Type := List (Feat × List (Option ℝ))

/-- Ordinal day offset from the series start (line 157). -/
noncomputable def daysCol (ds : List ℤ) : List (Option ℝ) :=
  ds.map fun d => some (((d - ds.minimum?.getD 0 : ℤ) : ℝ))

/-- Lag feature: close k rows back, missing for the first k rows (line 162). -/
noncomputable def shiftCol (k : ℕ) (cs : List ℝ) : List (Option ℝ) :=
  (List.range cs.length).map fun (j : ℕ) =>
    if k ≤ j then some (cs.getD (j - k) 0) else none

/-- The trailing window of w closes ending at row j inclusive. -/
noncomputable def windowAt (w j : ℕ) (cs : List ℝ) : List ℝ :=
  (cs.drop (j + 1 - w)).take w

/-- Trailing rolling mean over w rows, missing during warm-up (line 167). -/
noncomputable def rollMeanCol (w : ℕ) (cs : List ℝ) : List (Option ℝ) :=
  (List.range cs.length).map fun (j : ℕ) =>
    if w ≤ j + 1 then some (mean (windowAt w j cs)) else none

/-- Trailing rolling sample std over w rows, missing during warm-up (line 168). -/
noncomputable def rollStdCol (w : ℕ) (cs : List ℝ) : List (Option ℝ) :=
  (List.range cs.length).map fun (j : ℕ) =>
    if w ≤ j + 1 then some (sampleStd (windowAt w j cs)) else none

/-- Log return ln(close_j / close_j-1), missing on the first row (line 171). -/
noncomputable def logReturnsCol (cs : List ℝ) : List (Option ℝ) :=
  (List.range cs.length).map fun (j : ℕ) =>
    if 1 ≤ j then some (Real.log (cs.getD j 0 / cs.getD (j - 1) 0)) else none

/-- Cumulative return against the first close (line 174). -/
noncomputable def cumulativeCol (cs : List ℝ) : List (Option ℝ) :=
  cs.map fun c => some ((c / cs.headI - 1) * 100)

/-- Rolling 10-row std of log returns annualized by sqrt 252, missing until
row 10 where all ten window returns exist (line 178). -/
noncomputable def volatilityCol (cs : List ℝ) : List (Option ℝ) :=
  (List.range cs.length).map fun (j : ℕ) =>
    if 10 ≤ j then
      some (sampleStd ((List.range 10).map fun (m : ℕ) =>
        Real.log (cs.getD (j - 9 + m) 0 / cs.getD (j - 9 + m - 1) 0)) * Real.sqrt 252)
    else none

/-- Day of week (line 181); calendar weekday of the modelled day ordinal,
represented as the ordinal modulo 7 (the epoch offset is irrelevant to every
verified property). -/
noncomputable def dayOfWeekCol (ds : List ℤ) : List (Option ℝ) :=
  ds.map fun d => some (((d % 7 : ℤ) : ℝ))

/-- Momentum: close_j minus close_j-5, missing for the first 5 rows (line 185). -/
noncomputable def momentumCol (cs : List ℝ) : List (Option ℝ) :=
  (List.range cs.length).map fun (j : ℕ) =>
    if 5 ≤ j then some (cs.getD j 0 - cs.getD (j - 5) 0) else none

/-- Per-row gains max(delta, 0), missing on the first row (line 190). -/
noncomputable def gainsCol (cs : List ℝ) : List (Option ℝ) :=
  (List.range cs.length).map fun (j : ℕ) =>
    if 1 ≤ j then some (max (cs.getD j 0 - cs.getD (j - 1) 0) 0) else none

/-- Per-row losses max(-delta, 0), missing on the first row (line 191). -/
noncomputable def lossesCol (cs : List ℝ) : List (Option ℝ) :=
  (List.range cs.length).map fun (j : ℕ) =>
    if 1 ≤ j then some (max (-(cs.getD j 0 - cs.getD (j - 1) 0)) 0) else none

/-- Rolling mean over w rows of an optional column, missing when the window
does not fit or contains a missing value, pandas rolling(w).mean(). -/
noncomputable def rollMeanO (w : ℕ) (l : List (Option ℝ)) : List (Option ℝ) :=
  (List.range l.length).map fun (j : ℕ) =>
    if w ≤ j + 1 then
      (if ((l.drop (j + 1 - w)).take w).all Option.isSome then
        some (mean (((l.drop (j + 1 - w)).take w).filterMap id))
      else none)
    else none

/-- 14-period RSI (lines 188-193): 100 - 100/(1+RS) with RS the ratio of the
rolling mean gain to the rolling mean loss, missing when either rolling mean
is missing or the mean loss is zero (loss.replace(0, nan)). -/
noncomputable def rsiCol (cs : List ℝ) : List (Option ℝ) :=
  (List.range cs.length).map fun (j : ℕ) =>
    match (rollMeanO 14 (gainsCol cs)).getD j none,
        (rollMeanO 14 (lossesCol cs)).getD j none with
    | some g, some l => if l = 0 then none else some (100 - 100 / (1 + g / l))
    | _, _ => none

/-- _create_features (ml_service.py lines 143-195): the feature table, each
conditional column added exactly under the source's length guard. -/
noncomputable def create_features (ds : List ℤ) (cs : List ℝ) : FTable :=
  let n := cs.length
  [(Feat.days, daysCol ds)] ++
  (if 1 < n then [(Feat.lag1, shiftCol 1 cs)] else []) ++
  (if 3 < n then [(Feat.lag3, shiftCol 3 cs)] else []) ++
  (if 5 < n then [(Feat.lag5, shiftCol 5 cs)] else []) ++
  (if 7 < n then [(Feat.lag7, shiftCol 7 cs)] else []) ++
  (if 5 < n then [(Feat.rollingMean5, rollMeanCol 5 cs),
    (Feat.rollingStd5, rollStdCol 5 cs)] else []) ++
  (if 10 < n then [(Feat.rollingMean10, rollMeanCol 10 cs),
    (Feat.rollingStd10, rollStdCol 10 cs)] else []) ++
  (if 20 < n then [(Feat.rollingMean20, rollMeanCol 20 cs),
    (Feat.rollingStd20, rollStdCol 20 cs)] else []) ++
  [(Feat.logReturn, logReturnsCol cs), (Feat.cumulativeReturn, cumulativeCol cs)] ++
  (if 10 < n then [(Feat.volatility, volatilityCol cs)] else []) ++
  [(Feat.dayOfWeek, dayOfWeekCol ds)] ++
  (if 5 < n then [(Feat.momentum5, momentumCol cs)] else []) ++
  (if 14 < n then [(Feat.rsi, rsiCol cs)] else [])

/-- The fixed priority-ordered candidate list of _select_features (lines
202-211).  Note that the source lists rolling_std_5 and rolling_std_10 but
not rolling_std_20. -/
def potential_features : List Feat :=
  [Feat.days, Feat.lag1, Feat.lag3, Feat.lag5, Feat.lag7,
   Feat.rollingMean5, Feat.rollingMean10, Feat.rollingMean20,
   Feat.rollingStd5, Feat.rollingStd10,
   Feat.momentum5, Feat.rsi, Feat.volatility, Feat.dayOfWeek]

/-- Column lookup, feat in df.columns. -/
def colOf (t : FTable) (f : Feat) : Option (List (Option ℝ)) :=
  (List.find? (fun p => p.1 == f) t).map Prod.snd

/-- Number of non-missing entries among the last 10 rows of a column,
df[feat].iloc[-10:].notna().sum(). -/
def recentCoverage (c : List (Option ℝ)) : ℕ :=
  (c.drop (c.length - 10)).countP Option.isSome

/-- The combined candidate test of _select_features (lines 215-219): the
column exists and at least 5 of its last 10 rows are non-missing. -/
def coverageOK (t : FTable) (f : Feat) : Bool :=
  match colOf t f with
  | some c => 5 ≤ recentCoverage c
  | none => false

/-- _select_features (ml_service.py lines 197-221): filter the fixed
candidate list by the coverage test, falling back to the days feature alone
when nothing qualifies. -/
def select_features (t : FTable) : List Feat :=
  let sel := potential_features.filter (coverageOK t)
  if sel.isEmpty then [Feat.days] else sel

/-- The candidate list as the claim states it: rolling stds for all three
windows 5, 10, 20, in the same priority order. -/
def claim_candidates : List Feat :=
  [Feat.days, Feat.lag1, Feat.lag3, Feat.lag5, Feat.lag7,
   Feat.rollingMean5, Feat.rollingMean10, Feat.rollingMean20,
   Feat.rollingStd5, Feat.rollingStd10, Feat.rollingStd20,
   Feat.momentum5, Feat.rsi, Feat.volatility, Feat.dayOfWeek]

/-- Feature selection as the claim describes it, over the claimed candidate
list: include a candidate exactly when at least 5 of its last 10 rows are
non-missing, falling back to the days feature alone. -/
def claimSelect (t : FTable) : List Feat :=
  if (claim_candidates.filter (coverageOK t)).isEmpty then [Feat.days]
  else claim_candidates.filter (coverageOK t)

/-- Feature selection as the spec's words describe it once rolling_std_20 is
removed from the candidate list, phrased through an existence test. -/
def amendedSelect (t : FTable) : List Feat :=
  if ∃ f ∈ potential_features, coverageOK t f then potential_features.filter (coverageOK t)
  else [Feat.days]

/-- C8 counterexample: a table whose only column is rolling_std_20 with full
recent coverage.  The source selector never considers rolling_std_20 (it is
absent from potential_features) and falls back to days, while the claimed
selector would return rolling_std_20. -/
theorem select_features_cex :
    select_features [(Feat.rollingStd20, List.replicate 10 (some (1 : ℝ)))] ≠
      claimSelect [(Feat.rollingStd20, List.replicate 10 (some (1 : ℝ)))] := by
  have h1 : select_features [(Feat.rollingStd20, List.replicate 10 (some (1 : ℝ)))] =
      [Feat.days] := rfl
  have h2 : claimSelect [(Feat.rollingStd20, List.replicate 10 (some (1 : ℝ)))] =
      [Feat.rollingStd20] := rfl
  rw [h1, h2]
  decide

/-- C8 (amended): the source selector filters the priority-ordered candidate
list days, lags 1/3/5/7, rolling means 5/10/20, rolling stds 5/10 (but not
20), momentum, rsi, volatility, day_of_week, keeping a candidate exactly
when its column exists with at least 5 of its last 10 rows non-missing, in
priority order, and falls back to the days feature alone when no candidate
qualifies. -/
theorem select_features_spec (t : FTable) : select_features t = amendedSelect t := by
  simp only [select_features, amendedSelect]
  by_cases h : (potential_features.filter (coverageOK t)).isEmpty
  · rw [if_pos h]
    rw [List.isEmpty_iff] at h
    rw [if_neg]
    intro hex
    obtain ⟨f, hf, hp⟩ := hex
    have hmem : f ∈ potential_features.filter (coverageOK t) :=
      List.mem_filter.mpr ⟨hf, hp⟩
    rw [h] at hmem
    exact absurd hmem (List.not_mem_nil f)
  · rw [if_neg h]
    rw [List.isEmpty_iff] at h
    rw [if_pos]
    obtain ⟨x, hx⟩ := List.exists_mem_of_ne_nil _ h
    have hmem := List.mem_filter.mp hx
    exact ⟨x, hmem.1, hmem.2⟩

/-- A fetched price history, the result of price_service.get_history; the
surrounding Option models a falsy / missing history object. -/
structure History where
  prices : List RawRow

/-- The feature table built over a cleaned series. -/
noncomputable def featTable (c : List (ℤ × ℝ)) : FTable :=
  create_features (c.map Prod.fst) (c.map Prod.snd)

/-- Number of rows kept by df.dropna(subset=feature_cols + close) (line
279): rows where every selected feature is non-missing (the close column of
a cleaned series is never missing). -/
noncomputable def trainRowCount (t : FTable) (feats : List Feat) (n : ℕ) : ℕ :=
  ((List.range n).filter fun (j : ℕ) =>
    feats.all fun f => (((colOf t f).getD []).getD j none).isSome).length

/-- The training-row count of predict_prices over a cleaned series. -/
noncomputable def trainCountOf (c : List (ℤ × ℝ)) : ℕ :=
  trainRowCount (featTable c) (select_features (featTable c)) c.length

/-- Successful outcome of the data stages of predict_prices: the cleaned
series, preprocessing warnings, selected features and training-set size.
The numeric model fit and forecast construction that follow line 283 are
carried by this payload; the forecast-point construction itself is verified
separately through buildPredictions. -/
structure PredictOk where
  cleaned : List (ℤ × ℝ)
  warnings : List Warn
  features : List Feat
  trainCount : ℕ

/-- The staged body of predict_prices (ml_service.py lines 249-283): each
raise or early return is an error value. -/
noncomputable def predictE (h : Option History) : Except MLError PredictOk :=
  match h with
  | none => .error .noHistoricalData
  | some hist =>
    if hist.prices.isEmpty then .error .noPrices
    else if hist.prices.length < 15 then .error (.rawTooFew hist.prices.length)
    else
      match preprocess_data hist.prices with
      | .error e => .error e
      | .ok (c, _ws) =>
        if trainCountOf c < 10 then .error (.trainTooFew (trainCountOf c))
        else .ok ⟨c, _ws, select_features (featTable c), trainCountOf c⟩

/-- The structured result dictionary of predict_prices: the try/except
boundary (lines 469-474) turns every internal failure into a filled error
field; no exception escapes. -/
structure PredictResult where
  error : Option MLError
  ok : Option PredictOk

/-- predict_prices at the operation boundary: internal stage failures become
the error field of the structured result. -/
noncomputable def predict_prices (h : Option History) : PredictResult :=
  match predictE h with
  | .error e => ⟨some e, none⟩
  | .ok d => ⟨none, some d⟩

theorem preprocess_err (rows : List RawRow) (h : (cleanCore rows).1.length < 10) :
    preprocess_data rows = .error (.cleanTooFew (cleanCore rows).1.length) := by
  rw [preprocess_data]
  rw [if_pos h]

theorem preprocess_ok_of (rows : List RawRow) (h : ¬ (cleanCore rows).1.length < 10) :
    preprocess_data rows = .ok ((cleanCore rows).1, (cleanCore rows).2 ++
      (if (((cleanCore rows).1.length : ℚ)) < (7 / 10 : ℚ) * (rows.length : ℚ) then
        [Warn.dataLoss rows.length (cleanCore rows).1.length] else [])) := by
  rw [preprocess_data, if_neg h]

/-- C10: whenever the fetched history is non-empty but holds fewer than 15
raw price points, predict_prices rejects it with the raw-minimum error
before any cleaning or feature construction, even though the later stages
themselves only require 10 rows. -/
theorem predict_raw_minimum (hist : History) (h1 : hist.prices ≠ [])
    (h2 : hist.prices.length < 15) :
    predict_prices (some hist) =
      ⟨some (.rawTooFew hist.prices.length), none⟩ := by
  rw [predict_prices, predictE]
  rw [if_neg (by simpa [List.isEmpty_iff] using h1)]
  rw [if_pos h2]

/-- Witness for predict_raw_minimum on a 12-point history. -/
theorem predict_raw_minimum_witness :
    predict_prices (some ⟨toRawRows (rangeRows 12 100)⟩) =
      ⟨some (.rawTooFew 12), none⟩ := by
  have hlen : (toRawRows (rangeRows 12 (100 : ℝ))).length = 12 := by
    rw [toRawRows, List.length_map, rangeRows, List.length_map, List.length_range]
  have h := predict_raw_minimum ⟨toRawRows (rangeRows 12 100)⟩
    (by
      intro hnil
      have := congrArg List.length hnil
      rw [hlen] at this
      simp at this)
    (by show (toRawRows (rangeRows 12 (100 : ℝ))).length < 15; rw [hlen]; omega)
  rw [h, hlen]

/-- Close-column filter of get_trend_analysis (line 606-607): keep closes
that are present, truthy and strictly positive. -/
def filterPosCloses (rows : List (Option ℚ)) : List ℚ :=
  rows.filterMap fun o => o.bind fun v => if v ≠ 0 ∧ 0 < v then some v else none

/-- pandas pct_change of a price list with the leading NaN dropped:
elementwise (p(i+1) - p(i)) / p(i). -/
def pctReturns (ps : List ℚ) : List ℚ :=
  List.zipWith (fun a b => (b - a) / a) ps ps.tail

/-- The change_pct metric of calc_metrics (lines 617-632): empty (none) when
fewer than 2 prices or fewer than 2 returns survive, otherwise the percent
change between last and first price rounded to 2 decimals.  Over positive
exact rationals the pct_change column holds no null or infinite entry, so
the dropna / replace-infinity steps are the identity on it. -/
def calcChangePct (ps : List ℚ) : Option ℚ :=
  if ps.length < 2 then none
  else if (pctReturns ps).length < 2 then none
  else some (pyRound 2 ((ps.getLast?.getD 0 - ps.headI) / ps.headI * 100))

/-- The threshold classification of lines 638-643, applied with threshold 3
to the short window and 8 to the long window; a missing change_pct counts
as 0 through metrics.get. -/
def trendClass (thr cp : ℚ) : String :=
  if thr < cp then "bullish" else if cp < -thr then "bearish" else "neutral"

/-- Structured per-asset failures of get_trend_analysis: each is a returned
error dictionary, never a raised exception. -/
inductive TrendError
  | noHistory
  | noPrices
  | tooFew
deriving DecidableEq, Repr

/-- Successful trend-analysis payload: the fields of the returned dictionary
relevant to the trend classification. -/
structure TrendOk where
  current_price : ℚ
  short_change : Option ℚ
  long_change : Option ℚ
  short_trend : String
  long_trend : String
deriving DecidableEq, Repr

/-- get_trend_analysis (ml_service.py lines 587-676) on the 1M and 3M
histories: missing histories, missing price lists and too-few valid points
each return a structured error; otherwise the short trend is classified at
the plus-minus 3 threshold and the long trend at plus-minus 8 on the rounded
change_pct of the positive-close windows. -/
def get_trend_analysis (h1 h3 : Option (List (Option ℚ))) : Except TrendError TrendOk :=
  match h1, h3 with
  | none, _ => Except.error TrendError.noHistory
  | some _, none => Except.error TrendError.noHistory
  | some l1, some l3 =>
    if l1.isEmpty ∨ l3.isEmpty then Except.error TrendError.noPrices
    else if (filterPosCloses l1).length < 5 ∨ (filterPosCloses l3).length < 10 then
      Except.error TrendError.tooFew
    else Except.ok
      ⟨pyRound 2 ((filterPosCloses l1).getLast?.getD 0),
       calcChangePct (filterPosCloses l1),
       calcChangePct (filterPosCloses l3),
       trendClass 3 ((calcChangePct (filterPosCloses l1)).getD 0),
       trendClass 8 ((calcChangePct (filterPosCloses l3)).getD 0)⟩

theorem trendClass_iffs (thr cp : ℚ) (h : 0 ≤ thr) :
    (trendClass thr cp = "bullish" ↔ thr < cp) ∧
    (trendClass thr cp = "bearish" ↔ cp < -thr) ∧
    (trendClass thr cp = "neutral" ↔ -thr ≤ cp ∧ cp ≤ thr) := by
  rw [trendClass]
  split_ifs with ha hb
  · refine ⟨by simp [ha], ?_, ?_⟩
    · constructor
      · intro hc; simp at hc
      · intro hc; linarith
    · constructor
      · intro hc; simp at hc
      · intro hc; linarith [hc.2]
  · refine ⟨?_, by simp [hb], ?_⟩
    · constructor
      · intro hc; simp at hc
      · intro hc; exact absurd hc ha
    · constructor
      · intro hc; simp at hc
      · intro hc; linarith [hc.1]
  · refine ⟨?_, ?_, by constructor <;> intro <;> [constructor <;> linarith; rfl]⟩
    · constructor
      · intro hc; simp at hc
      · intro hc; exact absurd hc ha
    · constructor
      · intro hc; simp at hc
      · intro hc; exact absurd hc hb

/-- C9: with both histories present and non-empty, get_trend_analysis
returns the structured too-few-points error exactly when the short window
has fewer than 5 valid (positive) points or the long window fewer than 10;
otherwise it succeeds and classifies the short trend bullish exactly when
the short change_pct exceeds 3 and bearish exactly when it is below -3
(neutral otherwise), and the long trend at the analogous plus-minus 8
thresholds. -/
theorem trend_analysis_spec (l1 l3 : List (Option ℚ))
    (h1 : l1 ≠ []) (h3 : l3 ≠ []) :
    ((filterPosCloses l1).length < 5 ∨ (filterPosCloses l3).length < 10 →
      get_trend_analysis (some l1) (some l3) = Except.error TrendError.tooFew) ∧
    (5 ≤ (filterPosCloses l1).length → 10 ≤ (filterPosCloses l3).length →
      ∃ ok, get_trend_analysis (some l1) (some l3) = Except.ok ok ∧
        ok.short_change = calcChangePct (filterPosCloses l1) ∧
        ok.long_change = calcChangePct (filterPosCloses l3) ∧
        (ok.short_trend = "bullish" ↔ 3 < (ok.short_change).getD 0) ∧
        (ok.short_trend = "bearish" ↔ (ok.short_change).getD 0 < -3) ∧
        (ok.short_trend = "neutral" ↔
          -3 ≤ (ok.short_change).getD 0 ∧ (ok.short_change).getD 0 ≤ 3) ∧
        (ok.long_trend = "bullish" ↔ 8 < (ok.long_change).getD 0) ∧
        (ok.long_trend = "bearish" ↔ (ok.long_change).getD 0 < -8) ∧
        (ok.long_trend = "neutral" ↔
          -8 ≤ (ok.long_change).getD 0 ∧ (ok.long_change).getD 0 ≤ 8)) := by
  have hne : ¬ (l1.isEmpty ∨ l3.isEmpty) := by
    simp [List.isEmpty_iff, h1, h3]
  constructor
  · intro hlt
    simp only [get_trend_analysis]
    rw [if_neg hne, if_pos hlt]
  · intro h5 h10
    refine ⟨⟨pyRound 2 ((filterPosCloses l1).getLast?.getD 0),
        calcChangePct (filterPosCloses l1),
        calcChangePct (filterPosCloses l3),
        trendClass 3 ((calcChangePct (filterPosCloses l1)).getD 0),
        trendClass 8 ((calcChangePct (filterPosCloses l3)).getD 0)⟩,
      ?_, rfl, rfl, ?_, ?_, ?_, ?_, ?_, ?_⟩
    · simp only [get_trend_analysis]
      rw [if_neg hne, if_neg (by omega)]
    · exact (trendClass_iffs 3 _ (by norm_num)).1
    · exact (trendClass_iffs 3 _ (by norm_num)).2.1
    · exact (trendClass_iffs 3 _ (by norm_num)).2.2
    · exact (trendClass_iffs 8 _ (by norm_num)).1
    · exact (trendClass_iffs 8 _ (by norm_num)).2.1
    · exact (trendClass_iffs 8 _ (by norm_num)).2.2

/-- A short window of five positive closes ending 10 percent up. -/
def wTrendShort : List (Option ℚ) :=
  [some 100, some 100, some 100, some 100, some 110]

/-- A long window of ten equal positive closes. -/
def wTrendLong : List (Option ℚ) :=
  [some 100, some 100, some 100, some 100, some 100,
   some 100, some 100, some 100, some 100, some 100]

theorem filterPos_wShort : filterPosCloses wTrendShort = [100, 100, 100, 100, 110] := by
  rw [wTrendShort, filterPosCloses]
  norm_num [List.filterMap_cons, Option.some_bind]

theorem filterPos_wLong :
    filterPosCloses wTrendLong =
      [100, 100, 100, 100, 100, 100, 100, 100, 100, 100] := by
  rw [wTrendLong, filterPosCloses]
  norm_num [List.filterMap_cons, Option.some_bind]

theorem calcChangePct_wShort : calcChangePct [100, 100, 100, 100, 110] = some 10 := by
  rw [calcChangePct]
  rw [if_neg (by norm_num)]
  rw [if_neg (by rw [pctReturns]; norm_num)]
  norm_num [List.getLast?, List.headI]
  exact pyRound_of_int 2 10 1000 (by norm_num)

theorem calcChangePct_wLong :
    calcChangePct [100, 100, 100, 100, 100, 100, 100, 100, 100, 100] = some 0 := by
  rw [calcChangePct]
  rw [if_neg (by norm_num)]
  rw [if_neg (by rw [pctReturns]; norm_num)]
  norm_num [List.getLast?, List.headI]
  exact pyRound_of_int 2 0 0 (by norm_num)

/-- Witness for trend_analysis_spec: a 10-percent-up short window is
classified bullish and a flat long window neutral. -/
theorem trend_analysis_spec_witness :
    ∃ ok, get_trend_analysis (some wTrendShort) (some wTrendLong) = Except.ok ok ∧
      ok.short_trend = "bullish" ∧ ok.long_trend = "neutral" := by
  obtain ⟨-, hok⟩ := trend_analysis_spec wTrendShort wTrendLong
    (by rw [wTrendShort]; simp) (by rw [wTrendLong]; simp)
  obtain ⟨ok, hres, hsc, hlc, hbull, -, -, -, -, hneut⟩ := hok
    (by rw [filterPos_wShort]; norm_num) (by rw [filterPos_wLong]; norm_num)
  refine ⟨ok, hres, ?_, ?_⟩
  · apply hbull.mpr
    rw [hsc, filterPos_wShort, calcChangePct_wShort]
    norm_num
  · apply hneut.mpr
    rw [hlc, filterPos_wLong, calcChangePct_wLong]
    norm_num

/-- Close filter of calculate_correlation_matrix (line 513): keep closes
that are truthy and strictly positive. -/
noncomputable def posFilter (ps : List ℝ) : List ℝ :=
  ps.filter fun p => decide (p ≠ 0) && decide (0 < p)

/-- Per-symbol data collection (lines 507-521): a missing history
contributes nothing, a fetched one contributes its filtered closes when at
least 10 remain; the dict is modeled as an association list in insertion
order, symbol names acting as distinct column labels. -/
noncomputable def priceData (symbols : List (String × Option (List ℝ))) :
    List (String × List ℝ) :=
  symbols.filterMap fun sh =>
    sh.2.bind fun ps =>
      if 10 ≤ (posFilter ps).length then some (sh.1, posFilter ps) else none

/-- Minimum collected series length (line 530); the caller guards that the
collection is non-empty. -/
noncomputable def minLen (pd : List (String × List ℝ)) : ℕ :=
  ((pd.map fun p => p.2.length).min?).getD 0

/-- Log returns np.log(df / df.shift(1)) of one column with the leading NaN
row dropped; over positive closes every return is finite, so the
infinity-replacement and second dropna are the identity. -/
noncomputable def logRets (ps : List ℝ) : List ℝ :=
  List.zipWith (fun a b => Real.log (b / a)) ps ps.tail

/-- The aligned log-return columns (lines 529-543): each series cut to its
last minLen points, then log returns. -/
noncomputable def retCols (pd : List (String × List ℝ)) : List (List ℝ) :=
  pd.map fun p => logRets (p.2.drop (p.2.length - minLen pd))

/-- Centered cross-product sum of two columns: the building block of the
pearson correlation DataFrame.corr computes, corr = sXY / sqrt(sXX * sYY). -/
noncomputable def sXY (xs ys : List ℝ) : ℝ :=
  (List.zipWith (fun x y => (x - mean xs) * (y - mean ys)) xs ys).sum

/-- One rendered matrix cell (lines 551 and 575): pandas corr yields NaN
exactly when a column variance term vanishes, and line 575 renders NaN as 0
and rounds every other value to 4 decimals. -/
noncomputable def cellR (xs ys : List ℝ) : ℝ :=
  if sXY xs xs * sXY ys ys = 0 then 0
  else pyRound 4 (sXY xs ys / Real.sqrt (sXY xs xs * sXY ys ys))

/-- Structured failures of calculate_correlation_matrix: each is a returned
error dictionary, never a raised exception. -/
inductive CorrError
  | tooFewSymbols
  | tooFewReturns
deriving DecidableEq, Repr

/-- Successful correlation report: symbol list, rendered matrix and the
number of return rows; the ranked pairs list is a projection of the matrix
and is omitted. -/
structure CorrOk where
  symbols : List String
  matrix : List (List ℝ)
  data_points : ℕ

/-- calculate_correlation_matrix (ml_service.py lines 492-585): collect
at-least-10-point positive series per symbol, error when fewer than 2
symbols survive, align to the common minimum length, take log returns,
error when fewer than 5 return rows remain, and render the pairwise
correlation matrix with NaN as 0 and 4-decimal rounding. -/
noncomputable def calculate_correlation_matrix
    (symbols : List (String × Option (List ℝ))) : Except CorrError CorrOk :=
  if (priceData symbols).length < 2 then Except.error CorrError.tooFewSymbols
  else if minLen (priceData symbols) - 1 < 5 then Except.error CorrError.tooFewReturns
  else Except.ok
    ⟨(priceData symbols).map Prod.fst,
     (retCols (priceData symbols)).map fun c1 =>
       (retCols (priceData symbols)).map fun c2 => cellR c1 c2,
     minLen (priceData symbols) - 1⟩

theorem zipWith_mul_sum_range (a b : List ℝ) :
    (List.zipWith (fun x y => x * y) a b).sum =
      ∑ i ∈ Finset.range (min a.length b.length), a.getD i 0 * b.getD i 0 := by
  induction a generalizing b with
  | nil => simp
  | cons x ta ih =>
    cases b with
    | nil => simp
    | cons y tb =>
      rw [List.zipWith_cons_cons, List.sum_cons, ih tb, List.length_cons, List.length_cons,
        Nat.succ_min_succ, Finset.sum_range_succ']
      simp [List.getD_cons_succ, List.getD_cons_zero, add_comm]

theorem list_cauchy_schwarz (a b : List ℝ) :
    ((List.zipWith (fun x y => x * y) a b).sum) ^ 2 ≤
      (a.map fun x => x ^ 2).sum * (b.map fun x => x ^ 2).sum := by
  rw [zipWith_mul_sum_range]
  have hcs := Finset.sum_mul_sq_le_sq_mul_sq (Finset.range (min a.length b.length))
    (fun i => a.getD i 0) (fun i => b.getD i 0)
  have ha : ∑ i ∈ Finset.range (min a.length b.length), a.getD i 0 ^ 2 ≤
      (a.map fun x => x ^ 2).sum := by
    rw [list_sq_sum_eq_range_sum]
    apply Finset.sum_le_sum_of_subset_of_nonneg
    · exact Finset.range_subset.mpr (Nat.min_le_left _ _)
    · intro i _ _
      positivity
  have hb : ∑ i ∈ Finset.range (min a.length b.length), b.getD i 0 ^ 2 ≤
      (b.map fun x => x ^ 2).sum := by
    rw [list_sq_sum_eq_range_sum]
    apply Finset.sum_le_sum_of_subset_of_nonneg
    · exact Finset.range_subset.mpr (Nat.min_le_right _ _)
    · intro i _ _
      positivity
  have h1 : (0 : ℝ) ≤ ∑ i ∈ Finset.range (min a.length b.length), b.getD i 0 ^ 2 :=
    Finset.sum_nonneg fun i _ => sq_nonneg _
  have h2 : (0 : ℝ) ≤ (a.map fun x => x ^ 2).sum := by
    apply List.sum_nonneg
    intro x hx
    rw [List.mem_map] at hx
    obtain ⟨y, -, rfl⟩ := hx
    positivity
  exact le_trans hcs (mul_le_mul ha hb h1 h2)

theorem sXY_comm (xs ys : List ℝ) : sXY xs ys = sXY ys xs := by
  have hf : (fun (b : ℝ) (a : ℝ) => (a - mean xs) * (b - mean ys)) =
      fun x y => (x - mean ys) * (y - mean xs) := by
    funext u v
    ring
  rw [sXY, sXY, List.zipWith_comm, hf]

theorem sXY_self (xs : List ℝ) :
    sXY xs xs = (xs.map fun x => (x - mean xs) ^ 2).sum := by
  have hf : (fun (a : ℝ) => (a - mean xs) * (a - mean xs)) =
      fun x => (x - mean xs) ^ 2 := by
    funext x
    ring
  rw [sXY, List.zipWith_same, hf]

theorem sXY_self_nonneg (xs : List ℝ) : 0 ≤ sXY xs xs := by
  rw [sXY_self]
  apply List.sum_nonneg
  intro x hx
  rw [List.mem_map] at hx
  obtain ⟨y, -, rfl⟩ := hx
  positivity

theorem sXY_sq_le (xs ys : List ℝ) : sXY xs ys ^ 2 ≤ sXY xs xs * sXY ys ys := by
  have hx : sXY xs ys = (List.zipWith (fun x y => x * y)
      (xs.map fun x => x - mean xs) (ys.map fun y => y - mean ys)).sum := by
    rw [sXY, List.zipWith_map]
  have hxx : sXY xs xs = ((xs.map fun x => x - mean xs).map fun x => x ^ 2).sum := by
    rw [sXY_self, List.map_map]
    rfl
  have hyy : sXY ys ys = ((ys.map fun y => y - mean ys).map fun x => x ^ 2).sum := by
    rw [sXY_self, List.map_map]
    rfl
  rw [hx, hxx, hyy]
  exact list_cauchy_schwarz _ _

theorem cellR_comm (xs ys : List ℝ) : cellR xs ys = cellR ys xs := by
  rw [cellR, cellR, sXY_comm xs ys, mul_comm (sXY xs xs) (sXY ys ys)]

theorem cellR_abs_le (xs ys : List ℝ) : |cellR xs ys| ≤ 1 := by
  rw [cellR]
  split_ifs with h
  · norm_num
  · apply abs_pyRound_le_one
    have hxx := sXY_self_nonneg xs
    have hyy := sXY_self_nonneg ys
    have hprod : 0 < sXY xs xs * sXY ys ys :=
      lt_of_le_of_ne (mul_nonneg hxx hyy) (Ne.symm h)
    have hs : 0 < Real.sqrt (sXY xs xs * sXY ys ys) := Real.sqrt_pos.mpr hprod
    rw [abs_div, abs_of_nonneg (Real.sqrt_nonneg _), div_le_one hs]
    rw [← Real.sqrt_sq_eq_abs]
    exact Real.sqrt_le_sqrt (sXY_sq_le xs ys)

theorem cellR_self (c : List ℝ) : cellR c c = 1 ∨ cellR c c = 0 := by
  rw [cellR]
  by_cases h : sXY c c * sXY c c = 0
  · right
    rw [if_pos h]
  · left
    rw [if_neg h]
    have hnn := sXY_self_nonneg c
    have hne : sXY c c ≠ 0 := fun he => h (by rw [he]; ring)
    rw [Real.sqrt_mul_self hnn, div_self hne]
    have := pyRound_intCast (α := ℝ) 4 1
    simpa using this

theorem getD_map_lt {α β : Type} (f : α → β) (l : List α) (i : ℕ) (h : i < l.length) (d : β) :
    (l.map f).getD i d = f (l.get ⟨i, h⟩) := by
  have h2 : (l.map f).get? i = some (f (l.get ⟨i, h⟩)) := by
    rw [List.get?_map, List.get?_eq_get h, Option.map_some']
  calc (l.map f).getD i d = ((l.map f).get? i).getD d := rfl
    _ = f (l.get ⟨i, h⟩) := by rw [h2, Option.getD_some]

theorem corrMatrix_entry_symm (cols : List (List ℝ)) (i j : ℕ) :
    (((cols.map fun c1 => cols.map fun c2 => cellR c1 c2).getD i []).getD j 0) =
    (((cols.map fun c1 => cols.map fun c2 => cellR c1 c2).getD j []).getD i 0) := by
  by_cases hi : i < cols.length
  · by_cases hj : j < cols.length
    · rw [getD_map_lt _ _ _ hi, getD_map_lt _ _ _ hj,
        getD_map_lt _ _ _ hj, getD_map_lt _ _ _ hi]
      exact cellR_comm _ _
    · push_neg at hj
      have hrow : (List.map (fun c2 => cellR (cols.get ⟨i, hi⟩) c2) cols).length ≤ j := by
        rw [List.length_map]
        exact hj
      have houter : (cols.map fun c1 => cols.map fun c2 => cellR c1 c2).length ≤ j := by
        rw [List.length_map]
        exact hj
      rw [getD_map_lt _ _ _ hi, List.getD_eq_default _ _ hrow,
        List.getD_eq_default _ _ houter]
      rfl
  · push_neg at hi
    by_cases hj : j < cols.length
    · have hrow : (List.map (fun c2 => cellR (cols.get ⟨j, hj⟩) c2) cols).length ≤ i := by
        rw [List.length_map]
        exact hi
      have houter : (cols.map fun c1 => cols.map fun c2 => cellR c1 c2).length ≤ i := by
        rw [List.length_map]
        exact hi
      rw [getD_map_lt _ _ _ hj, List.getD_eq_default _ _ hrow,
        List.getD_eq_default _ _ houter]
      rfl
    · push_neg at hj
      have houteri : (cols.map fun c1 => cols.map fun c2 => cellR c1 c2).length ≤ i := by
        rw [List.length_map]
        exact hi
      have houterj : (cols.map fun c1 => cols.map fun c2 => cellR c1 c2).length ≤ j := by
        rw [List.length_map]
        exact hj
      rw [List.getD_eq_default _ _ houteri, List.getD_eq_default _ _ houterj]
      simp

/-- C3 (amended): every successful correlation report has a matrix that is
square over the listed symbols, symmetric, with every entry in [-1, 1] and
every diagonal entry equal to 1 or to 0 - the 0 case arises when a column's
return variance vanishes, where pandas corr produces NaN and line 575
renders it as 0, so the unit-diagonal part of the claim fails as stated,
see the counterexample. -/
theorem correlation_matrix_spec (symbols : List (String × Option (List ℝ)))
    (out : CorrOk) (h : calculate_correlation_matrix symbols = Except.ok out) :
    out.matrix.length = out.symbols.length ∧
    (∀ row ∈ out.matrix, row.length = out.symbols.length) ∧
    (∀ i j : ℕ, (out.matrix.getD i []).getD j 0 = (out.matrix.getD j []).getD i 0) ∧
    (∀ i : ℕ, i < out.symbols.length →
      (out.matrix.getD i []).getD i 0 = 1 ∨ (out.matrix.getD i []).getD i 0 = 0) ∧
    (∀ row ∈ out.matrix, ∀ v ∈ row, |v| ≤ 1) := by
  rw [calculate_correlation_matrix] at h
  split_ifs at h
  rw [Except.ok.injEq] at h
  subst h
  refine ⟨?_, ?_, ?_, ?_, ?_⟩
  · simp [retCols, List.length_map]
  · intro row hrow
    rw [List.mem_map] at hrow
    obtain ⟨c1, -, rfl⟩ := hrow
    simp [retCols, List.length_map]
  · intro i j
    exact corrMatrix_entry_symm _ i j
  · intro i hi
    have hi' : i < (retCols (priceData symbols)).length := by
      simpa [retCols, List.length_map] using hi
    show ((((retCols (priceData symbols)).map fun c1 =>
        (retCols (priceData symbols)).map fun c2 => cellR c1 c2).getD i []).getD i 0) = 1 ∨ _
    rw [getD_map_lt _ _ _ hi', getD_map_lt _ _ _ hi']
    exact cellR_self _
  · intro row hrow v hv
    rw [List.mem_map] at hrow
    obtain ⟨c1, -, rfl⟩ := hrow
    rw [List.mem_map] at hv
    obtain ⟨c2, -, rfl⟩ := hv
    exact cellR_abs_le _ _

/-- Ten constant closes at 1. -/
noncomputable def onesTen : List ℝ := [1, 1, 1, 1, 1, 1, 1, 1, 1, 1]

/-- Ten constant closes at 2. -/
noncomputable def twosTen : List ℝ := [2, 2, 2, 2, 2, 2, 2, 2, 2, 2]

/-- Two assets with constant positive price histories. -/
noncomputable def cexCorrInput : List (String × Option (List ℝ)) :=
  [("AAA", some onesTen), ("BBB", some twosTen)]

/-- Nine zero log returns. -/
noncomputable def zeroNine : List ℝ := [0, 0, 0, 0, 0, 0, 0, 0, 0]

theorem posFilter_onesTen : posFilter onesTen = onesTen := by
  rw [posFilter, onesTen]
  norm_num

theorem posFilter_twosTen : posFilter twosTen = twosTen := by
  rw [posFilter, twosTen]
  norm_num

theorem priceData_cex :
    priceData cexCorrInput = [("AAA", onesTen), ("BBB", twosTen)] := by
  rw [priceData, cexCorrInput]
  simp only [List.filterMap_cons, List.filterMap_nil, Option.some_bind]
  rw [posFilter_onesTen, posFilter_twosTen]
  rw [if_pos (by rw [onesTen]; norm_num), if_pos (by rw [twosTen]; norm_num)]

theorem minLen_cex : minLen [("AAA", onesTen), ("BBB", twosTen)] = 10 := by
  rw [minLen]
  simp only [List.map_cons, List.map_nil]
  rw [onesTen, twosTen]
  norm_num [List.min?]

theorem logRets_onesTen : logRets onesTen = zeroNine := by
  rw [logRets, onesTen, zeroNine]
  norm_num [Real.log_one]

theorem logRets_twosTen : logRets twosTen = zeroNine := by
  rw [logRets, twosTen, zeroNine]
  norm_num [Real.log_one]

theorem retCols_cex :
    retCols [("AAA", onesTen), ("BBB", twosTen)] = [zeroNine, zeroNine] := by
  rw [retCols, minLen_cex]
  simp only [List.map_cons, List.map_nil]
  rw [show onesTen.length - 10 = 0 by rw [onesTen]; norm_num]
  rw [show twosTen.length - 10 = 0 by rw [twosTen]; norm_num]
  rw [List.drop_zero, List.drop_zero, logRets_onesTen, logRets_twosTen]

theorem sXY_zeroNine : sXY zeroNine zeroNine = 0 := by
  rw [sXY, zeroNine, mean]
  norm_num

theorem cellR_zeroNine : cellR zeroNine zeroNine = 0 := by
  rw [cellR, if_pos (by rw [sXY_zeroNine]; ring)]

theorem corr_cex_eval :
    calculate_correlation_matrix cexCorrInput =
      Except.ok ⟨["AAA", "BBB"], [[0, 0], [0, 0]], 9⟩ := by
  rw [calculate_correlation_matrix, priceData_cex, minLen_cex, retCols_cex]
  rw [if_neg (by norm_num), if_neg (by norm_num)]
  simp only [List.map_cons, List.map_nil, cellR_zeroNine]

/-- C3 counterexample: two assets with ten constant positive closes each
produce a successful correlation report whose diagonal entry is 0, not 1:
the constant log-return columns have zero variance, pandas corr yields NaN
on the whole matrix including the diagonal, and line 575 renders NaN as 0. -/
theorem correlation_diag_cex :
    ∃ out, calculate_correlation_matrix cexCorrInput = Except.ok out ∧
      (out.matrix.getD 0 []).getD 0 0 = 0 ∧
      ¬ (out.matrix.getD 0 []).getD 0 0 = 1 ∧ out.symbols.length = 2 := by
  refine ⟨_, corr_cex_eval, rfl, ?_, rfl⟩
  show ¬ ((0 : ℝ) = 1)
  norm_num

/-- Witness for correlation_matrix_spec at the two-asset constant input:
the returned matrix is square over its two symbols and its first diagonal
entry is 1 or 0. -/
theorem correlation_matrix_spec_witness :
    (CorrOk.mk ["AAA", "BBB"] [[0, 0], [0, 0]] 9).matrix.length =
      (CorrOk.mk ["AAA", "BBB"] [[0, 0], [0, 0]] 9).symbols.length ∧
    (((CorrOk.mk ["AAA", "BBB"] [[0, 0], [0, 0]] 9).matrix.getD 0 []).getD 0 0 = 1 ∨
      ((CorrOk.mk ["AAA", "BBB"] [[0, 0], [0, 0]] 9).matrix.getD 0 []).getD 0 0 = 0) :=
  ⟨(correlation_matrix_spec cexCorrInput _ corr_cex_eval).1,
    (correlation_matrix_spec cexCorrInput _ corr_cex_eval).2.2.2.1 0 (by simp)⟩

/-- Scenario D input: 8 rows with parseable dates 0..7 and close 100, plus
7 rows whose date fails to parse; 15 raw points, 8 surviving cleaning. -/
noncomputable def scenDRows : List RawRow :=
  toRawRows (rangeRows 8 100) ++ List.replicate 7 ⟨none, some 100⟩

theorem datedRows_append (l1 l2 : List RawRow) :
    datedRows (l1 ++ l2) = datedRows l1 ++ datedRows l2 := by
  rw [datedRows, datedRows, datedRows, List.filterMap_append]

theorem datedRows_none_date (l : List RawRow) (h : ∀ r ∈ l, r.date = none) :
    datedRows l = [] := by
  rw [datedRows, List.filterMap_eq_nil]
  intro r hr
  rw [h r hr]
  rfl

theorem scenD_dated :
    datedRows scenDRows = datedRows (toRawRows (rangeRows 8 100)) := by
  rw [scenDRows, datedRows_append,
    datedRows_none_date (List.replicate 7 ⟨none, some 100⟩)
      (fun r hr => by rw [List.eq_of_mem_replicate hr]),
    List.append_nil]

theorem scenD_preClip : preClipRows scenDRows = rangeRows 8 100 := by
  rw [preClipRows, scenD_dated]
  have h := preClipRows_toRawRows (rangeRows 8 100) (rangeRows_closes_ne 8 100 (by norm_num))
  rw [preClipRows] at h
  exact h

theorem scenD_clean_fst : (cleanCore scenDRows).1 = rangeRows 8 100 := by
  rw [cleanCore_fst, scenD_preClip]
  have hlen : (rangeRows 8 (100 : ℝ)).length = 8 := by
    rw [rangeRows, List.length_map, List.length_range]
  have hclip : clipStep (rangeRows 8 100) = (rangeRows 8 100, 0) := by
    rw [clipStep, if_neg (by rw [hlen]; norm_num)]
  rw [hclip]
  have hs : List.Sorted dateLE (rangeRows 8 100) := sorted_rangeRows 8 100
  exact hs.insertionSort_eq

theorem scenD_length : scenDRows.length = 15 := by
  rw [scenDRows, List.length_append, List.length_replicate, toRawRows,
    List.length_map, rangeRows, List.length_map, List.length_range]

theorem scenD_preprocess :
    preprocess_data scenDRows = .error (.cleanTooFew 8) := by
  have h8 : (cleanCore scenDRows).1.length = 8 := by
    rw [scenD_clean_fst, rangeRows, List.length_map, List.length_range]
  have h := preprocess_err scenDRows (by rw [h8]; norm_num)
  rw [h8] at h
  exact h

theorem scenD_predictE :
    predictE (some ⟨scenDRows⟩) = .error (.cleanTooFew 8) := by
  have hne : scenDRows ≠ [] := by
    intro hnil
    have h := congrArg List.length hnil
    rw [scenD_length] at h
    simp at h
  simp only [predictE]
  rw [if_neg (by simpa [List.isEmpty_iff] using hne)]
  rw [scenD_length]
  rw [if_neg (by norm_num)]
  rw [scenD_preprocess]

/-- C2: the three outer operations are total and return structured results:
predict_prices always yields exactly one of a filled error field or a
success payload (the try/except of lines 469-474), get_trend_analysis and
calculate_correlation_matrix always return either a structured error value
or a success value, and in particular a history leaving only 8 valid points
after cleaning makes predict_prices return the insufficient-clean-data
error result carrying the count 8 rather than escaping as an exception. -/
theorem error_propagation_spec :
    (∀ h : Option History,
      ((predict_prices h).error = none ∧ (predict_prices h).ok ≠ none) ∨
      ((predict_prices h).ok = none ∧ ∃ e, (predict_prices h).error = some e)) ∧
    (∀ a b : Option (List (Option ℚ)),
      (∃ e, get_trend_analysis a b = Except.error e) ∨
      (∃ okv, get_trend_analysis a b = Except.ok okv)) ∧
    (∀ s : List (String × Option (List ℝ)),
      (∃ e, calculate_correlation_matrix s = Except.error e) ∨
      (∃ outv, calculate_correlation_matrix s = Except.ok outv)) ∧
    predict_prices (some ⟨scenDRows⟩) = ⟨some (.cleanTooFew 8), none⟩ := by
  refine ⟨?_, ?_, ?_, ?_⟩
  · intro h
    cases hE : predictE h with
    | error e =>
      right
      rw [predict_prices, hE]
      exact ⟨rfl, e, rfl⟩
    | ok d =>
      left
      rw [predict_prices, hE]
      exact ⟨rfl, by simp⟩
  · intro a b
    cases hE : get_trend_analysis a b with
    | error e => exact Or.inl ⟨e, rfl⟩
    | ok okv => exact Or.inr ⟨okv, rfl⟩
  · intro s
    cases hE : calculate_correlation_matrix s with
    | error e => exact Or.inl ⟨e, rfl⟩
    | ok outv => exact Or.inr ⟨outv, rfl⟩
  · rw [predict_prices, scenD_predictE]
